import Mathlib

/-!
# Verification of the fastobo OBO parser/serializer core

A shallow embedding of the fastobo library (OBO 1.4 flat-file format):
the header-clause AST with its serializer and line parser, the qualifier
list ordering, the typedef clause taxonomy with cardinality metadata,
the streaming frame reader with offset bookkeeping, and the document
writer.  Text is embedded as `List Char`; Rust strings are their
character lists, and `String.data` bridges literal notation.

The pest grammar itself (crate `fastobo-syntax`) is not part of the
sources; where a construction depends on it, the parsing functions are
modelled from the specification of the grammar (tag dispatch on
`tag: value` lines, escape handling, identifier / URL disambiguation)
and documented as such.
-/

namespace Fastobo

/-- Rust strings / string slices, embedded as character lists. -/
abbrev Text := List Char

/-- The opening brace character (used by qualifier-list serialization). -/
def lbrace : Char := Char.ofNat 123

/-- The closing brace character (used by qualifier-list serialization). -/
def rbrace : Char := Char.ofNat 125

/-- Characters escaped in unquoted contexts (identifiers, unquoted
strings): newline, tab, backslash, double quote, colon, comma and the
two braces, following the escape table of the OBO lexical grammar. -/
def escapeChar (c : Char) : Text :=
  if c = '\n' then ['\\', 'n']
  else if c = '\t' then ['\\', 't']
  else if c = '\\' then ['\\', '\\']
  else if c = '"' then ['\\', '"']
  else if c = ':' then ['\\', ':']
  else if c = ',' then ['\\', ',']
  else if c = lbrace then ['\\', lbrace]
  else if c = rbrace then ['\\', rbrace]
  else [c]

/-- Escape a whole string for an unquoted context. -/
def escape : Text → Text
  | [] => []
  | c :: rest => escapeChar c ++ escape rest

/-- Inverse of a single escape pair: the character denoted by `\c`. -/
def unescChar (c : Char) : Char :=
  if c = 'n' then '\n'
  else if c = 't' then '\t'
  else c

/-- Unescape a string from an unquoted context; a character that was
never special is left unchanged, and a lone trailing backslash is kept. -/
def unescape : Text → Text
  | [] => []
  | c :: rest =>
    if c = '\\' then
      match rest with
      | [] => ['\\']
      | d :: rest2 => unescChar d :: unescape rest2
    else c :: unescape rest

/-- A character is *plain* when escaping leaves it alone. -/
def plainChar (c : Char) : Prop := escapeChar c = [c]

instance (c : Char) : Decidable (plainChar c) := by
  unfold plainChar; infer_instance

theorem unescape_cons {c : Char} (t : Text) (h : c ≠ '\\') :
    unescape (c :: t) = c :: unescape t := by
  cases t <;> simp [unescape, h]

theorem escapeChar_plain {c : Char} (h1 : c ≠ '\n') (h2 : c ≠ '\t')
    (h3 : c ≠ '\\') (h4 : c ≠ '"') (h5 : c ≠ ':') (h6 : c ≠ ',')
    (h7 : c ≠ lbrace) (h8 : c ≠ rbrace) : escapeChar c = [c] := by
  simp [escapeChar, h1, h2, h3, h4, h5, h6, h7, h8]

theorem unescape_escapeChar (c : Char) (t : Text) :
    unescape (escapeChar c ++ t) = c :: unescape t := by
  by_cases h1 : c = '\n'
  · subst h1; simp [escapeChar, unescape, unescChar]
  by_cases h2 : c = '\t'
  · subst h2; simp [escapeChar, unescape, unescChar, h1]
  by_cases h3 : c = '\\'
  · subst h3; simp [escapeChar, unescape, unescChar]
  by_cases h4 : c = '"'
  · subst h4; simp [escapeChar, unescape, unescChar]
  by_cases h5 : c = ':'
  · subst h5; simp [escapeChar, unescape, unescChar]
  by_cases h6 : c = ','
  · subst h6; simp [escapeChar, unescape, unescChar]
  by_cases h7 : c = lbrace
  · subst h7
    have hne : lbrace ≠ '\\' := by decide
    have hn : lbrace ≠ 'n' := by decide
    have ht : lbrace ≠ 't' := by decide
    simp [escapeChar, unescape, unescChar, hn, ht]
  by_cases h8 : c = rbrace
  · subst h8
    have hn : rbrace ≠ 'n' := by decide
    have ht : rbrace ≠ 't' := by decide
    simp [escapeChar, unescape, unescChar, hn, ht]
  · rw [escapeChar_plain h1 h2 h3 h4 h5 h6 h7 h8]
    exact unescape_cons t h3

/-- Unescaping inverts escaping: the serialized form of any string
reads back as the original. -/
theorem unescape_escape (s : Text) (t : Text) :
    unescape (escape s ++ t) = s ++ unescape t := by
  induction s with
  | nil => simp [escape]
  | cons c rest ih =>
    simp only [escape, List.append_assoc]
    rw [unescape_escapeChar, ih]; rfl

theorem unescape_escape_nil (s : Text) : unescape (escape s) = s := by
  have := unescape_escape s []
  simpa [unescape] using this

theorem escape_append (a b : Text) : escape (a ++ b) = escape a ++ escape b := by
  induction a with
  | nil => simp [escape]
  | cons c rest ih => simp [escape, ih]

/-- An all-plain string escapes to itself. -/
theorem escape_eq_self {s : Text} (h : ∀ c ∈ s, plainChar c) : escape s = s := by
  induction s with
  | nil => rfl
  | cons c rest ih =>
    have hc : escapeChar c = [c] := h c (by simp)
    simp only [escape, hc, List.singleton_append, List.cons.injEq, true_and]
    exact ih fun d hd => h d (by simp [hd])

/-- A string without backslashes unescapes to itself. -/
theorem unescape_eq_self {s : Text} (h : '\\' ∉ s) : unescape s = s := by
  induction s with
  | nil => rfl
  | cons c rest ih =>
    have hc : c ≠ '\\' := fun hcc => h (by simp [hcc])
    rw [unescape_cons rest hc]
    exact congrArg (c :: ·) (ih fun hm => h (by simp [hm]))

/-- Case split on the escape of a character: either it is a two-character
escape pair, or the character is plain and in particular neither a
backslash nor a colon. -/
theorem escapeChar_cases (c : Char) :
    (∃ d, escapeChar c = ['\\', d]) ∨
      (escapeChar c = [c] ∧ c ≠ '\\' ∧ c ≠ ':') := by
  by_cases h1 : c = '\n'
  · exact Or.inl ⟨'n', by simp [escapeChar, h1]⟩
  by_cases h2 : c = '\t'
  · exact Or.inl ⟨'t', by simp [escapeChar, h1, h2]⟩
  by_cases h3 : c = '\\'
  · exact Or.inl ⟨'\\', by simp [escapeChar, h1, h2, h3]⟩
  by_cases h4 : c = '"'
  · exact Or.inl ⟨'"', by simp [escapeChar, h1, h2, h3, h4]⟩
  by_cases h5 : c = ':'
  · exact Or.inl ⟨':', by simp [escapeChar, h1, h2, h3, h4, h5]⟩
  by_cases h6 : c = ','
  · exact Or.inl ⟨',', by simp [escapeChar, h1, h2, h3, h4, h5, h6]⟩
  by_cases h7 : c = lbrace
  · exact Or.inl ⟨lbrace, by subst h7; decide⟩
  by_cases h8 : c = rbrace
  · exact Or.inl ⟨rbrace, by subst h8; decide⟩
  · exact Or.inr ⟨escapeChar_plain h1 h2 h3 h4 h5 h6 h7 h8, h3, h5⟩

/-- Scanner for the first unescaped colon; the flag records whether the
previous character was an unconsumed backslash. -/
def splitColonAux : Bool → Text → Option (Text × Text)
  | _, [] => none
  | true, c :: rest => (splitColonAux false rest).map fun p => (c :: p.1, p.2)
  | false, c :: rest =>
    if c = '\\' then (splitColonAux true rest).map fun p => (c :: p.1, p.2)
    else if c = ':' then some ([], rest)
    else (splitColonAux false rest).map fun p => (c :: p.1, p.2)

/-- Modelled from the spec: a prefixed identifier is `prefix:local`
with escapes applied to both parts; this splits an identifier at its
first unescaped colon, into the raw prefix part and the raw local
part. -/
def splitColon (line : Text) : Option (Text × Text) :=
  splitColonAux false line

/-- Modelled from the spec: a clause is a `tag: value` line, and the
tag cannot contain an unescaped colon; this splits a clause line at its
first unescaped `": "` separator, into the raw tag part and the raw
value part. -/
def splitTag (line : Text) : Option (Text × Text) :=
  match splitColon line with
  | some (t, ' ' :: v) => some (t, v)
  | _ => none

theorem splitColonAux_escape (t rest : Text) :
    splitColonAux false (escape t ++ ':' :: rest) = some (escape t, rest) := by
  induction t with
  | nil => simp [escape, splitColonAux]
  | cons c ts ih =>
    rcases escapeChar_cases c with ⟨d, he⟩ | ⟨he, hb, hc⟩
    · simp [escape, he, splitColonAux, ih]
    · simp [escape, he, List.singleton_append, splitColonAux, hb, hc, ih]

/-- An escaped string contains no unescaped colon. -/
theorem splitColon_escape (s : Text) : splitColon (escape s) = none := by
  unfold splitColon
  induction s with
  | nil => simp [escape, splitColonAux]
  | cons c ts ih =>
    rcases escapeChar_cases c with ⟨d, he⟩ | ⟨he, hb, hc⟩
    · simp [escape, he, splitColonAux, ih]
    · simp [escape, he, List.singleton_append, splitColonAux, hb, hc, ih]

theorem splitColon_append (p l : Text) :
    (∀ c ∈ p, c ≠ '\\' ∧ c ≠ ':') → splitColon (p ++ ':' :: l) = some (p, l) := by
  unfold splitColon
  induction p with
  | nil => intro _; simp [splitColonAux]
  | cons c ts ih =>
    intro h
    obtain ⟨hb, hc⟩ := h c (by simp)
    simp [splitColonAux, hb, hc, ih fun d hd => h d (by simp [hd])]

theorem splitTag_escape (t v : Text) :
    splitTag (escape t ++ ':' :: ' ' :: v) = some (escape t, v) := by
  simp [splitTag, splitColon, splitColonAux_escape]

/-- Split a multi-field clause value at its first space. -/
def splitSpace : Text → Option (Text × Text)
  | [] => none
  | c :: rest =>
    if c = ' ' then some ([], rest)
    else (splitSpace rest).map fun p => (c :: p.1, p.2)

theorem splitSpace_append {tok : Text} (rest : Text) (h : ' ' ∉ tok) :
    splitSpace (tok ++ ' ' :: rest) = some (tok, rest) := by
  induction tok with
  | nil => simp [splitSpace]
  | cons c ts ih =>
    have hc : c ≠ ' ' := fun hcc => h (by simp [hcc])
    simp [splitSpace, hc, ih fun hm => h (by simp [hm])]

theorem splitSpace_none {tok : Text} (h : ' ' ∉ tok) :
    splitSpace tok = none := by
  induction tok with
  | nil => rfl
  | cons c ts ih =>
    have hc : c ≠ ' ' := fun hcc => h (by simp [hcc])
    simp [splitSpace, hc, ih fun hm => h (by simp [hm])]

/-- Escape of one character inside a quoted string: only `"` and `\`
are special there. -/
def escapeQChar (c : Char) : Text :=
  if c = '"' then ['\\', '"']
  else if c = '\\' then ['\\', '\\']
  else [c]

/-- Escape the content of a quoted string. -/
def escapeQ : Text → Text
  | [] => []
  | c :: rest => escapeQChar c ++ escapeQ rest

/-- Serialized form of a `QuotedString`: double-quoted, content escaped. -/
def displayQuoted (s : Text) : Text := '"' :: escapeQ s ++ ['"']

/-- Scan the inside of a quoted string up to its unescaped closing
quote; returns the unescaped content and the remainder of the line.  The
flag records whether the previous character was an unconsumed backslash
(inside quoted strings only `"` and `\` are escaped, so the escaped
character stands for itself). -/
def scanQuotedAux : Bool → Text → Option (Text × Text)
  | _, [] => none
  | true, c :: rest => (scanQuotedAux false rest).map fun p => (c :: p.1, p.2)
  | false, c :: rest =>
    if c = '\\' then scanQuotedAux true rest
    else if c = '"' then some ([], rest)
    else (scanQuotedAux false rest).map fun p => (c :: p.1, p.2)

/-- Scan a quoted string token (opening quote, content, closing quote). -/
def scanQuoted : Text → Option (Text × Text)
  | [] => none
  | c :: rest => if c = '"' then scanQuotedAux false rest else none

theorem scanQuotedAux_escapeQ (s rest : Text) :
    scanQuotedAux false (escapeQ s ++ '"' :: rest) = some (s, rest) := by
  induction s with
  | nil => simp [escapeQ, scanQuotedAux]
  | cons c ts ih =>
    by_cases h1 : c = '"'
    · simp [escapeQ, escapeQChar, h1, scanQuotedAux, ih]
    by_cases h2 : c = '\\'
    · simp [escapeQ, escapeQChar, h1, h2, scanQuotedAux, ih]
    · simp [escapeQ, escapeQChar, h1, h2, List.singleton_append,
        scanQuotedAux, ih]

theorem scanQuoted_displayQuoted (s rest : Text) :
    scanQuoted (displayQuoted s ++ rest) = some (s, rest) := by
  simp [displayQuoted, scanQuoted, scanQuotedAux_escapeQ]

/-- The decimal digit character for `d < 10`. -/
def digitChar (d : Nat) : Char := Char.ofNat (48 + d % 10)

/-- Numeric value of a digit character. -/
def digitVal (c : Char) : Nat := c.toNat - 48

/-- Two-digit zero-padded decimal rendering (dates and times). -/
def pad2 (n : Nat) : Text := [digitChar (n / 10), digitChar (n % 10)]

/-- Four-digit zero-padded decimal rendering (the year of a date). -/
def pad4 (n : Nat) : Text :=
  [digitChar (n / 1000), digitChar (n / 100 % 10),
   digitChar (n / 10 % 10), digitChar (n % 10)]

/-- Read exactly two decimal digits. -/
def readNat2 : Text → Option (Nat × Text)
  | a :: b :: rest =>
    if a.isDigit ∧ b.isDigit then
      some (digitVal a * 10 + digitVal b, rest)
    else none
  | _ => none

/-- Read exactly four decimal digits. -/
def readNat4 : Text → Option (Nat × Text)
  | a :: b :: c :: d :: rest =>
    if a.isDigit ∧ b.isDigit ∧ c.isDigit ∧ d.isDigit then
      some (digitVal a * 1000 + digitVal b * 100 + digitVal c * 10 + digitVal d, rest)
    else none
  | _ => none

/-- Expect a specific literal character. -/
def expectChar (c : Char) : Text → Option Text
  | d :: rest => if d = c then some rest else none
  | [] => none

theorem digitChar_isDigit (d : Nat) : (digitChar d).isDigit = true := by
  have h : d % 10 < 10 := Nat.mod_lt _ (by omega)
  unfold digitChar
  interval_cases h : d % 10 <;> decide

theorem digitVal_digitChar (d : Nat) : digitVal (digitChar d) = d % 10 := by
  have h : d % 10 < 10 := Nat.mod_lt _ (by omega)
  unfold digitChar digitVal
  interval_cases h : d % 10 <;> decide

theorem readNat2_pad2 {n : Nat} (rest : Text) (h : n < 100) :
    readNat2 (pad2 n ++ rest) = some (n, rest) := by
  simp only [pad2, List.cons_append, List.nil_append, readNat2,
    digitChar_isDigit, digitVal_digitChar, and_self, if_true]
  have hn : n / 10 % 10 * 10 + n % 10 % 10 = n := by omega
  rw [hn]

theorem readNat4_pad4 {n : Nat} (rest : Text) (h : n < 10000) :
    readNat4 (pad4 n ++ rest) = some (n, rest) := by
  simp only [pad4, List.cons_append, List.nil_append, readNat4,
    digitChar_isDigit, digitVal_digitChar, and_self, if_true]
  have hn : n / 1000 % 10 * 1000 + n / 100 % 10 % 10 * 100 +
      n / 10 % 10 % 10 * 10 + n % 10 % 10 = n := by omega
  rw [hn]

theorem expectChar_cons (c : Char) (rest : Text) :
    expectChar c (c :: rest) = some rest := by
  simp [expectChar]

/-! ## Identifiers (the identifier lattice of `ast::id`) -/

/-- The OBO identifier character class: letters, digits, `_` and `-`. -/
def isIdChar (c : Char) : Bool := c.isAlpha || c.isDigit || c = '_' || c = '-'

/-- Whether a text begins with two slashes (used by URL detection). -/
def startsSlashSlash (t : Text) : Bool :=
  (t.head? == some '/') && (t.tail.head? == some '/')

/-- Modelled from the spec: URL detection — a URL must begin with a
non-empty alphabetic scheme followed by `://`. -/
def isUrlText (v : Text) : Bool :=
  !(v.takeWhile fun c => !(c == ':')).isEmpty &&
    (v.takeWhile fun c => !(c == ':')).all Char.isAlpha &&
    !(v.dropWhile fun c => !(c == ':')).isEmpty &&
    startsSlashSlash (v.dropWhile fun c => !(c == ':')).tail

/-- An owned OBO identifier: prefixed, unprefixed, or URL. -/
inductive Ident
  | prefixed (pfx : Text) (loc : Text)
  | unprefixed (name : Text)
  | url (iri : Text)
deriving DecidableEq

/-- Canonical serialization of an identifier: `prefix:local` with both
parts escaped, the escaped bare name, or the URL unchanged. -/
def displayIdent : Ident → Text
  | .prefixed p l => escape p ++ ':' :: escape l
  | .unprefixed s => escape s
  | .url u => u

/-- Modelled from the spec: identifier parsing tries a URL first, then
splits at the first unescaped colon into a prefixed identifier with
non-empty parts, else reads an unprefixed identifier. -/
def parseIdentText (v : Text) : Option Ident :=
  if isUrlText v then some (.url v)
  else
    match splitColon v with
    | some (a, b) =>
      if a ≠ [] ∧ b ≠ [] then some (.prefixed (unescape a) (unescape b))
      else none
    | none => if v = [] then none else some (.unprefixed (unescape v))

theorem isIdChar_spec {c : Char} (h : isIdChar c = true) :
    c ≠ '\\' ∧ c ≠ ':' ∧ c ≠ ' ' ∧ c ≠ '/' ∧ c ≠ '"' ∧ plainChar c := by
  refine ⟨?_, ?_, ?_, ?_, ?_, ?_⟩
  · rintro rfl; revert h; decide
  · rintro rfl; revert h; decide
  · rintro rfl; revert h; decide
  · rintro rfl; revert h; decide
  · rintro rfl; revert h; decide
  · apply escapeChar_plain <;> (rintro rfl; revert h; decide)

theorem mem_escapeChar {e c : Char} (h : e ∈ escapeChar c) :
    e = c ∨ e = '\\' ∨ e = 'n' ∨ e = 't' := by
  unfold escapeChar at h
  split_ifs at h <;> simp at h <;> subst_vars <;> tauto

theorem mem_escape {e : Char} {s : Text} (h : e ∈ escape s) :
    e ∈ s ∨ e = '\\' ∨ e = 'n' ∨ e = 't' := by
  induction s with
  | nil => simp [escape] at h
  | cons c ts ih =>
    simp only [escape, List.mem_append] at h
    rcases h with h | h
    · rcases mem_escapeChar h with h | h | h | h
      · exact Or.inl (by simp [h])
      · exact Or.inr (Or.inl h)
      · exact Or.inr (Or.inr (Or.inl h))
      · exact Or.inr (Or.inr (Or.inr h))
    · rcases ih h with h | h
      · exact Or.inl (by simp [h])
      · exact Or.inr h

theorem space_notin_escape {s : Text} (h : ' ' ∉ s) : ' ' ∉ escape s := by
  intro hm
  rcases mem_escape hm with hm | hm | hm | hm
  · exact h hm
  all_goals simp at hm

theorem escape_ne_nil {s : Text} (h : s ≠ []) : escape s ≠ [] := by
  cases s with
  | nil => exact absurd rfl h
  | cons c ts =>
    simp only [escape]
    rcases escapeChar_cases c with ⟨d, he⟩ | ⟨he, _, _⟩ <;> simp [he]

theorem dropWhile_head_false {α : Type} {q : α → Bool} (l : List α) :
    ∀ {c t}, l.dropWhile q = c :: t → q c = false := by
  induction l with
  | nil => intro c t h; simp [List.dropWhile] at h
  | cons a as ih =>
    intro c t h
    by_cases hq : q a
    · rw [List.dropWhile_cons, if_pos hq] at h
      exact ih h
    · rw [List.dropWhile_cons, if_neg hq] at h
      injection h with h1 _
      subst h1
      exact Bool.eq_false_iff.mpr hq

theorem takeWhile_append_all {q : Char → Bool} {a : Text}
    (h : ∀ c ∈ a, q c = true) (b : Text) :
    (a ++ b).takeWhile q = a ++ b.takeWhile q := by
  induction a with
  | nil => simp
  | cons c ts ih =>
    have hc : q c = true := h c (by simp)
    simp only [List.cons_append, List.takeWhile_cons, hc, if_true]
    rw [ih fun d hd => h d (by simp [hd])]

theorem dropWhile_append_all {q : Char → Bool} {a : Text}
    (h : ∀ c ∈ a, q c = true) (b : Text) :
    (a ++ b).dropWhile q = b.dropWhile q := by
  induction a with
  | nil => simp
  | cons c ts ih =>
    have hc : q c = true := h c (by simp)
    simp only [List.cons_append, List.dropWhile_cons, hc, if_true]
    exact ih fun d hd => h d (by simp [hd])

/-- A URL decomposes as a non-empty alphabetic scheme, a colon, and a
remainder beginning with two slashes. -/
theorem url_split {x : Text} (h : isUrlText x = true) :
    ∃ pre post, x = pre ++ ':' :: post ∧ pre ≠ [] ∧
      (∀ c ∈ pre, c.isAlpha) ∧ startsSlashSlash post = true := by
  unfold isUrlText at h
  rw [Bool.and_eq_true, Bool.and_eq_true, Bool.and_eq_true] at h
  obtain ⟨⟨⟨hpre, halpha⟩, hpost⟩, hss⟩ := h
  have hpre2 : (x.takeWhile fun c => !(c == ':')) ≠ [] := by
    intro hnil; rw [hnil] at hpre; simp at hpre
  rcases hd : x.dropWhile fun c => !(c == ':') with _ | ⟨c, t⟩
  · rw [hd] at hpost; simp at hpost
  · have hc : (!(c == ':')) = false := dropWhile_head_false x hd
    have hc2 : c = ':' := by simpa using hc
    subst hc2
    refine ⟨_, t, ?_, hpre2, ?_, ?_⟩
    · have hx := List.takeWhile_append_dropWhile
        (p := fun c => !(c == ':')) (l := x)
      rw [hd] at hx
      exact hx.symm
    · intro d hdm
      exact List.all_eq_true.mp halpha d hdm
    · rw [hd] at hss
      simpa using hss

/-- No colon in the serialized form of a string is preceded by a purely
alphabetic prefix: every colon of an escaped string follows its escape
backslash. -/
theorem escape_no_alpha_colon :
    ∀ (s pre post : Text), escape s = pre ++ ':' :: post →
      (∀ c ∈ pre, c.isAlpha) → False := by
  intro s
  induction s with
  | nil =>
    intro pre post h _
    cases pre <;> simp [escape] at h
  | cons c ts ih =>
    intro pre post h halpha
    rcases escapeChar_cases c with ⟨d, he⟩ | ⟨he, _, hc⟩
    · cases pre with
      | nil =>
        rw [escape, he] at h
        simp at h
      | cons a pre2 =>
        rw [escape, he] at h
        simp only [List.cons_append, List.cons.injEq] at h
        have ha : a.isAlpha := halpha a (by simp)
        rw [← h.1] at ha
        simp at ha
    · cases pre with
      | nil =>
        rw [escape, he] at h
        simp only [List.singleton_append, List.nil_append,
          List.cons.injEq] at h
        exact hc h.1
      | cons a pre2 =>
        rw [escape, he] at h
        simp only [List.singleton_append, List.cons_append,
          List.cons.injEq] at h
        exact ih pre2 post h.2 fun d hd => halpha d (by simp [hd])

/-- The serialized form of an unprefixed identifier never looks like a
URL. -/
theorem escape_not_url (s : Text) : isUrlText (escape s) = false := by
  by_contra h
  rw [Bool.not_eq_false] at h
  obtain ⟨pre, post, hx, _, halpha, _⟩ := url_split h
  exact escape_no_alpha_colon s pre post hx halpha

theorem startsSlashSlash_escape {l : Text}
    (h : ∀ c ∈ l, isIdChar c = true ∨ ¬ plainChar c) :
    startsSlashSlash (escape l) = false := by
  cases l with
  | nil => rfl
  | cons c ts =>
    rcases escapeChar_cases c with ⟨d, he⟩ | ⟨he, _, _⟩
    · simp [escape, he, startsSlashSlash]
    · have hslash : c ≠ '/' := by
        rcases h c (by simp) with hid | hnp
        · exact (isIdChar_spec hid).2.2.2.1
        · intro hcc; rw [hcc] at hnp; exact hnp (by decide)
      simp [escape, he, startsSlashSlash, hslash]

/-- The serialized form of a prefixed identifier whose prefix is drawn
from the OBO identifier character class and whose local part is
embeddable never looks like a URL. -/
theorem prefixed_not_url {p : Text} (X : Text)
    (hp : ∀ c ∈ p, (!(c == ':')) = true)
    (hs : startsSlashSlash X = false) :
    isUrlText (p ++ ':' :: X) = false := by
  unfold isUrlText
  rw [takeWhile_append_all hp, dropWhile_append_all hp]
  have h1 : List.takeWhile (fun c => !(c == ':')) (':' :: X) = [] := by
    simp [List.takeWhile_cons]
  have h2 : List.dropWhile (fun c => !(c == ':')) (':' :: X) = ':' :: X := by
    simp [List.dropWhile_cons]
  rw [h1, h2]
  simp [hs]

/-! ## Primitive payload values -/

/-- A naive date-time `(day, month, year, hour, minute)`, without
timezone. -/
structure NaiveDateTime where
  day : Nat
  month : Nat
  year : Nat
  hour : Nat
  minute : Nat
deriving DecidableEq

/-- Serialization `DD:MM:YYYY HH:MM` with zero padding. -/
def displayDate (dt : NaiveDateTime) : Text :=
  pad2 dt.day ++ (':' :: (pad2 dt.month ++ (':' :: (pad4 dt.year ++
    (' ' :: (pad2 dt.hour ++ (':' :: pad2 dt.minute)))))))

/-- Parse a `DD:MM:YYYY HH:MM` date-time. -/
def parseDate (v : Text) : Option NaiveDateTime := do
  let (dd, v1) ← readNat2 v
  let v2 ← expectChar ':' v1
  let (mm, v3) ← readNat2 v2
  let v4 ← expectChar ':' v3
  let (yy, v5) ← readNat4 v4
  let v6 ← expectChar ' ' v5
  let (hh, v7) ← readNat2 v6
  let v8 ← expectChar ':' v7
  let (mi, v9) ← readNat2 v8
  if v9 = [] then some ⟨dd, mm, yy, hh, mi⟩ else none

/-- Field ranges of a date-time. -/
def wfDate (dt : NaiveDateTime) : Prop :=
  1 ≤ dt.day ∧ dt.day ≤ 31 ∧ 1 ≤ dt.month ∧ dt.month ≤ 12 ∧
    dt.year ≤ 9999 ∧ dt.hour ≤ 23 ∧ dt.minute ≤ 59

theorem parseDate_display {dt : NaiveDateTime} (h : wfDate dt) :
    parseDate (displayDate dt) = some dt := by
  obtain ⟨h1, h2, h3, h4, h5, h6, h7⟩ := h
  unfold displayDate parseDate
  rw [readNat2_pad2 _ (by omega : dt.day < 100)]
  simp only [Option.bind_eq_bind, Option.some_bind, expectChar_cons]
  rw [readNat2_pad2 _ (by omega : dt.month < 100)]
  simp only [Option.some_bind, expectChar_cons]
  rw [readNat4_pad4 _ (by omega : dt.year < 10000)]
  simp only [Option.some_bind, expectChar_cons]
  rw [readNat2_pad2 _ (by omega : dt.hour < 100)]
  simp only [Option.some_bind, expectChar_cons]
  have : readNat2 (pad2 dt.minute) = some (dt.minute, []) := by
    have := readNat2_pad2 (n := dt.minute) [] (by omega)
    simpa using this
  rw [this]
  simp

/-- A synonym scope specifier. -/
inductive SynonymScope
  | Exact
  | Broad
  | Narrow
  | Related
deriving DecidableEq

def displayScope : SynonymScope → Text
  | .Exact => "EXACT".data
  | .Broad => "BROAD".data
  | .Narrow => "NARROW".data
  | .Related => "RELATED".data

def parseScope (v : Text) : Option SynonymScope :=
  if v = "EXACT".data then some .Exact
  else if v = "BROAD".data then some .Broad
  else if v = "NARROW".data then some .Narrow
  else if v = "RELATED".data then some .Related
  else none

theorem parseScope_display (s : SynonymScope) :
    parseScope (displayScope s) = some s := by
  cases s <;> rfl

/-- Well-formedness of an identifier: the parts are non-empty, a prefix
is drawn from the identifier character class, a local part only holds
characters that are in the class or must be escaped, an unprefixed name
carries no space, and a URL identifier really is a URL. -/
def wfIdent : Ident → Prop
  | .prefixed p l =>
      p ≠ [] ∧ (∀ c ∈ p, isIdChar c = true) ∧ l ≠ [] ∧
        (∀ c ∈ l, isIdChar c = true ∨ ¬ plainChar c)
  | .unprefixed s => s ≠ [] ∧ ' ' ∉ s
  | .url u => isUrlText u = true ∧ ' ' ∉ u

theorem parseIdentText_display {id : Ident} (h : wfIdent id) :
    parseIdentText (displayIdent id) = some id := by
  cases id with
  | url u =>
    simp [displayIdent, parseIdentText, h.1]
  | unprefixed s =>
    obtain ⟨hne, _⟩ := h
    simp [displayIdent, parseIdentText, escape_not_url, splitColon_escape,
      escape_ne_nil hne, unescape_escape_nil]
  | prefixed p l =>
    obtain ⟨hp, hpc, hl, hlc⟩ := h
    have hep : escape p = p :=
      escape_eq_self fun c hc => (isIdChar_spec (hpc c hc)).2.2.2.2.2
    have hq : ∀ c ∈ p, (!(c == ':')) = true := fun c hc => by
      have := (isIdChar_spec (hpc c hc)).2.1
      simp [this]
    have hurl : isUrlText (p ++ ':' :: escape l) = false :=
      prefixed_not_url _ hq (startsSlashSlash_escape hlc)
    have hcolon : splitColon (p ++ ':' :: escape l) = some (p, escape l) :=
      splitColon_append p _ fun c hc =>
        ⟨(isIdChar_spec (hpc c hc)).1, (isIdChar_spec (hpc c hc)).2.1⟩
    have hnb : '\\' ∉ p := fun hm => (isIdChar_spec (hpc _ hm)).1 rfl
    show parseIdentText (escape p ++ ':' :: escape l) = _
    rw [hep]
    simp [parseIdentText, hurl, hcolon, hp, escape_ne_nil hl,
      unescape_eq_self hnb, unescape_escape_nil]

theorem displayIdent_noSpace {id : Ident} (h : wfIdent id) :
    ' ' ∉ displayIdent id := by
  cases id with
  | url u => exact h.2
  | unprefixed s => exact space_notin_escape h.2
  | prefixed p l =>
    obtain ⟨_, hpc, _, hlc⟩ := h
    intro hm
    simp only [displayIdent, List.mem_append, List.mem_cons] at hm
    rcases hm with hm | hm | hm
    · exact space_notin_escape
        (fun hs => (isIdChar_spec (hpc _ hs)).2.2.1 rfl) hm
    · exact absurd hm.symm (by decide)
    · refine space_notin_escape (fun hs => ?_) hm
      rcases hlc _ hs with hid | hnp
      · exact (isIdChar_spec hid).2.2.1 rfl
      · exact hnp (by decide)

theorem wfIdent_not_url_isUrl {id : Ident} (h : wfIdent id)
    (hnu : ∀ u, id ≠ .url u) : isUrlText (displayIdent id) = false := by
  cases id with
  | url u => exact absurd rfl (hnu u)
  | unprefixed s => exact escape_not_url s
  | prefixed p l =>
    obtain ⟨_, hpc, _, hlc⟩ := h
    have hep : escape p = p :=
      escape_eq_self fun c hc => (isIdChar_spec (hpc c hc)).2.2.2.2.2
    have hq : ∀ c ∈ p, (!(c == ':')) = true := fun c hc => by
      have := (isIdChar_spec (hpc c hc)).2.1
      simp [this]
    show isUrlText (escape p ++ ':' :: escape l) = false
    rw [hep]
    exact prefixed_not_url _ hq (startsSlashSlash_escape hlc)

theorem displayIdent_headQuote {id : Ident} (h : wfIdent id) :
    ((displayIdent id).head? == some '"') = false := by
  cases id with
  | url u =>
    obtain ⟨pre, post, hx, hpre, halpha, _⟩ := url_split h.1
    cases pre with
    | nil => exact absurd rfl hpre
    | cons a t =>
      have ha : a.isAlpha := halpha a (by simp)
      have : a ≠ '"' := fun hq => by rw [hq] at ha; simp at ha
      simp [displayIdent, hx, this]
  | unprefixed s =>
    obtain ⟨hne, _⟩ := h
    cases s with
    | nil => exact absurd rfl hne
    | cons c ts =>
      rcases escapeChar_cases c with ⟨d, he⟩ | ⟨he, hb, _⟩
      · simp [displayIdent, escape, he]
      · have hc : c ≠ '"' := by
          intro hq
          rw [hq] at he
          simp [escapeChar] at he
        simp [displayIdent, escape, he, hc]
  | prefixed p l =>
    obtain ⟨hp, hpc, _, _⟩ := h
    cases p with
    | nil => exact absurd rfl hp
    | cons c ts =>
      have hc : c ≠ '"' := fun hq => (isIdChar_spec (hpc c (by simp))).2.2.2.2.1 hq
      have hplain : escapeChar c = [c] := (isIdChar_spec (hpc c (by simp))).2.2.2.2.2
      simp [displayIdent, escape, hplain, hc]

/-- An `import` clause payload: an abbreviated identifier or a URL,
decided from the textual form at parse time. -/
inductive OboImport
  | Abbreviated (id : Ident)
  | Url (iri : Text)
deriving DecidableEq

def displayImport : OboImport → Text
  | .Abbreviated id => displayIdent id
  | .Url u => u

/-- Parse an import payload: try a URL first, fall back to an
identifier. -/
def parseImport (v : Text) : Option OboImport :=
  if isUrlText v then some (.Url v)
  else (parseIdentText v).map .Abbreviated

def wfImport : OboImport → Prop
  | .Abbreviated id => wfIdent id ∧ ∀ u, id ≠ .url u
  | .Url u => isUrlText u = true

theorem parseImport_display {i : OboImport} (h : wfImport i) :
    parseImport (displayImport i) = some i := by
  cases i with
  | Url u => simp [displayImport, parseImport, show isUrlText u = true from h]
  | Abbreviated id =>
    obtain ⟨hid, hnu⟩ := h
    simp [displayImport, parseImport, wfIdent_not_url_isUrl hid hnu,
      parseIdentText_display hid]

/-- A property-value payload: either an identified value or a typed
literal. -/
inductive PropertyValue
  | Identified (rel : Ident) (value : Ident)
  | Typed (rel : Ident) (value : Text) (ty : Ident)
deriving DecidableEq

/-- Quoted-string payloads must not contain a raw newline (the format is
line-oriented). -/
def wfQuoted (s : Text) : Prop := '\n' ∉ s

def displayPV : PropertyValue → Text
  | .Identified r v => displayIdent r ++ (' ' :: displayIdent v)
  | .Typed r s ty =>
      displayIdent r ++ (' ' :: (displayQuoted s ++ (' ' :: displayIdent ty)))

def parsePV (v : Text) : Option PropertyValue := do
  let (tok, rest) ← splitSpace v
  let r ← parseIdentText tok
  if (rest.head? == some '"') = true then do
    let (lit, rest2) ← scanQuoted rest
    match rest2 with
    | ' ' :: tytok => (parseIdentText tytok).map (.Typed r lit)
    | _ => none
  else
    (parseIdentText rest).map (.Identified r)

def wfPV : PropertyValue → Prop
  | .Identified r v => wfIdent r ∧ wfIdent v
  | .Typed r s ty => wfIdent r ∧ wfQuoted s ∧ wfIdent ty

theorem parsePV_display {pv : PropertyValue} (h : wfPV pv) :
    parsePV (displayPV pv) = some pv := by
  cases pv with
  | Identified r v =>
    obtain ⟨hr, hv⟩ := h
    simp only [displayPV, parsePV]
    rw [splitSpace_append _ (displayIdent_noSpace hr)]
    simp only [Option.bind_eq_bind, Option.some_bind,
      parseIdentText_display hr]
    rw [if_neg (by simp [displayIdent_headQuote hv])]
    simp [parseIdentText_display hv]
  | Typed r s ty =>
    obtain ⟨hr, _, hty⟩ := h
    simp only [displayPV, parsePV]
    rw [splitSpace_append _ (displayIdent_noSpace hr)]
    simp only [Option.bind_eq_bind, Option.some_bind,
      parseIdentText_display hr]
    have hq : ((displayQuoted s ++ (' ' :: displayIdent ty)).head? ==
        some '"') = true := by
      simp [displayQuoted]
    rw [if_pos hq, scanQuoted_displayQuoted]
    simp [parseIdentText_display hty]

/-! ## Header clauses (`ast::header::clause`) -/

/-- An identifier prefix, a non-empty string of the OBO identifier
character class. -/
def wfPfx (p : Text) : Prop := p ≠ [] ∧ ∀ c ∈ p, isIdChar c = true

/-- Serialization of an identifier prefix. -/
def displayPfx (p : Text) : Text := escape p

/-- Parse an identifier prefix. -/
def parsePfxText (v : Text) : Option Text :=
  if v ≠ [] ∧ v.all isIdChar = true then some v else none

theorem parsePfxText_display {p : Text} (h : wfPfx p) :
    parsePfxText (displayPfx p) = some p := by
  obtain ⟨hne, hc⟩ := h
  have hep : escape p = p :=
    escape_eq_self fun c hm => (isIdChar_spec (hc c hm)).2.2.2.2.2
  unfold displayPfx parsePfxText
  rw [hep, if_pos ⟨hne, List.all_eq_true.mpr hc⟩]

theorem displayPfx_noSpace {p : Text} (h : wfPfx p) :
    ' ' ∉ displayPfx p :=
  space_notin_escape fun hm => (isIdChar_spec (h.2 _ hm)).2.2.1 rfl

/-- A clause appearing in a header frame, mirroring the `HeaderClause`
enum of the source (variant order is the declaration order). -/
inductive HeaderClause
  | FormatVersion (version : Text)
  | DataVersion (version : Text)
  | Date (date : NaiveDateTime)
  | SavedBy (person : Text)
  | AutoGeneratedBy (thing : Text)
  | Import (i : OboImport)
  | Subsetdef (subset : Ident) (description : Text)
  | SynonymTypedef (ty : Ident) (description : Text) (scope : Option SynonymScope)
  | DefaultNamespace (ns : Ident)
  | NamespaceIdRule (r : Text)
  | Idspace (pfx : Text) (iri : Text) (description : Option Text)
  | TreatXrefsAsEquivalent (pfx : Text)
  | TreatXrefsAsGenusDifferentia (pfx : Text) (rel : Ident) (cls : Ident)
  | TreatXrefsAsReverseGenusDifferentia (pfx : Text) (rel : Ident) (cls : Ident)
  | TreatXrefsAsRelationship (pfx : Text) (rel : Ident)
  | TreatXrefsAsIsA (pfx : Text)
  | TreatXrefsAsHasSubclass (pfx : Text)
  | PropertyValue (pv : PropertyValue)
  | Remark (remark : Text)
  | Ontology (ont : Text)
  | OwlAxioms (axioms : Text)
  | Unreserved (tag : Text) (value : Text)
deriving DecidableEq

/-- Canonical serialization of a header clause, mirroring
`impl Display for HeaderClause` of the source (the current variant,
which writes the `treat-xrefs-as-has-subclass: ` separator). -/
def HeaderClause.display : HeaderClause → Text
  | .FormatVersion v => "format-version: ".data ++ escape v
  | .DataVersion v => "data-version: ".data ++ escape v
  | .Date dt => "date: ".data ++ displayDate dt
  | .SavedBy p => "saved-by: ".data ++ escape p
  | .AutoGeneratedBy t => "auto-generated-by: ".data ++ escape t
  | .Import i => "import: ".data ++ displayImport i
  | .Subsetdef s d =>
      "subsetdef: ".data ++ (displayIdent s ++ (' ' :: displayQuoted d))
  | .SynonymTypedef t d sc =>
      "synonymtypedef: ".data ++ (displayIdent t ++ (' ' :: (displayQuoted d ++
        (match sc with | some s => ' ' :: displayScope s | none => []))))
  | .DefaultNamespace ns => "default-namespace: ".data ++ displayIdent ns
  | .NamespaceIdRule r => "namespace-id-rule: ".data ++ escape r
  | .Idspace p u d =>
      "idspace: ".data ++ (displayPfx p ++ (' ' :: (u ++
        (match d with | some q => ' ' :: displayQuoted q | none => []))))
  | .TreatXrefsAsEquivalent p =>
      "treat-xrefs-as-equivalent: ".data ++ displayPfx p
  | .TreatXrefsAsGenusDifferentia p r c =>
      "treat-xrefs-as-genus-differentia: ".data ++
        (displayPfx p ++ (' ' :: (displayIdent r ++ (' ' :: displayIdent c))))
  | .TreatXrefsAsReverseGenusDifferentia p r c =>
      "treat-xrefs-as-reverse-genus-differentia: ".data ++
        (displayPfx p ++ (' ' :: (displayIdent r ++ (' ' :: displayIdent c))))
  | .TreatXrefsAsRelationship p r =>
      "treat-xrefs-as-relationship: ".data ++
        (displayPfx p ++ (' ' :: displayIdent r))
  | .TreatXrefsAsIsA p => "treat-xrefs-as-is_a: ".data ++ displayPfx p
  | .TreatXrefsAsHasSubclass p =>
      "treat-xrefs-as-has-subclass: ".data ++ displayPfx p
  | .PropertyValue pv => "property_value: ".data ++ displayPV pv
  | .Remark r => "remark: ".data ++ escape r
  | .Ontology o => "ontology: ".data ++ escape o
  | .OwlAxioms a => "owl-axioms: ".data ++ escape a
  | .Unreserved t v => escape t ++ (':' :: (' ' :: escape v))

/-- Parse a `subsetdef` payload: a subset identifier then a quoted
description. -/
def parseSubsetdef (v : Text) : Option (Ident × Text) := do
  let (tok, rest) ← splitSpace v
  let id ← parseIdentText tok
  let (desc, rest2) ← scanQuoted rest
  if rest2 = [] then some (id, desc) else none

/-- Parse a `synonymtypedef` payload: an identifier, a quoted
description, and an optional synonym scope. -/
def parseSynTypedef (v : Text) :
    Option (Ident × Text × Option SynonymScope) := do
  let (tok, rest) ← splitSpace v
  let id ← parseIdentText tok
  let (desc, rest2) ← scanQuoted rest
  match rest2 with
  | [] => some (id, desc, none)
  | ' ' :: sc => (parseScope sc).map fun s => (id, desc, some s)
  | _ => none

/-- Parse an `idspace` payload: a prefix, a URL, and an optional quoted
description. -/
def parseIdspace (v : Text) : Option (Text × Text × Option Text) := do
  let (tok, rest) ← splitSpace v
  let p ← parsePfxText tok
  match splitSpace rest with
  | none => if isUrlText rest then some (p, rest, none) else none
  | some (utok, rest2) =>
    if isUrlText utok then do
      let (desc, rest3) ← scanQuoted rest2
      if rest3 = [] then some (p, utok, some desc) else none
    else none

/-- Parse a `treat-xrefs-as-(reverse-)genus-differentia` payload:
a prefix, a relation identifier, and a class identifier. -/
def parseGD (v : Text) : Option (Text × Ident × Ident) := do
  let (tok, rest) ← splitSpace v
  let p ← parsePfxText tok
  let (rtok, rest2) ← splitSpace rest
  let r ← parseIdentText rtok
  let c ← parseIdentText rest2
  some (p, r, c)

/-- Parse a `treat-xrefs-as-relationship` payload: a prefix and a
relation identifier. -/
def parseRelXref (v : Text) : Option (Text × Ident) := do
  let (tok, rest) ← splitSpace v
  let p ← parsePfxText tok
  let r ← parseIdentText rest
  some (p, r)

/-- The reserved header clause tags, in declaration order. -/
def reservedTags : List Text :=
  ["format-version".data, "data-version".data, "date".data,
   "saved-by".data, "auto-generated-by".data, "import".data,
   "subsetdef".data, "synonymtypedef".data, "default-namespace".data,
   "namespace-id-rule".data, "idspace".data,
   "treat-xrefs-as-equivalent".data, "treat-xrefs-as-genus-differentia".data,
   "treat-xrefs-as-reverse-genus-differentia".data,
   "treat-xrefs-as-relationship".data, "treat-xrefs-as-is_a".data,
   "treat-xrefs-as-has-subclass".data, "property_value".data,
   "remark".data, "ontology".data, "owl-axioms".data]

/-- Dispatch on the (unescaped) tag of a header clause line, mirroring
the rule dispatch of `FromPair for HeaderClause`: every reserved tag
selects its typed payload parser, any other tag yields an `Unreserved`
clause with the value kept verbatim. -/
def dispatchHeaderTag (tag v : Text) : Option HeaderClause :=
  if tag = "format-version".data then some (.FormatVersion (unescape v))
  else if tag = "data-version".data then some (.DataVersion (unescape v))
  else if tag = "date".data then (parseDate v).map .Date
  else if tag = "saved-by".data then some (.SavedBy (unescape v))
  else if tag = "auto-generated-by".data then
    some (.AutoGeneratedBy (unescape v))
  else if tag = "import".data then (parseImport v).map .Import
  else if tag = "subsetdef".data then
    (parseSubsetdef v).map fun p => .Subsetdef p.1 p.2
  else if tag = "synonymtypedef".data then
    (parseSynTypedef v).map fun p => .SynonymTypedef p.1 p.2.1 p.2.2
  else if tag = "default-namespace".data then
    (parseIdentText v).map .DefaultNamespace
  else if tag = "namespace-id-rule".data then
    some (.NamespaceIdRule (unescape v))
  else if tag = "idspace".data then
    (parseIdspace v).map fun p => .Idspace p.1 p.2.1 p.2.2
  else if tag = "treat-xrefs-as-equivalent".data then
    (parsePfxText v).map .TreatXrefsAsEquivalent
  else if tag = "treat-xrefs-as-genus-differentia".data then
    (parseGD v).map fun p => .TreatXrefsAsGenusDifferentia p.1 p.2.1 p.2.2
  else if tag = "treat-xrefs-as-reverse-genus-differentia".data then
    (parseGD v).map fun p =>
      .TreatXrefsAsReverseGenusDifferentia p.1 p.2.1 p.2.2
  else if tag = "treat-xrefs-as-relationship".data then
    (parseRelXref v).map fun p => .TreatXrefsAsRelationship p.1 p.2
  else if tag = "treat-xrefs-as-is_a".data then
    (parsePfxText v).map .TreatXrefsAsIsA
  else if tag = "treat-xrefs-as-has-subclass".data then
    (parsePfxText v).map .TreatXrefsAsHasSubclass
  else if tag = "property_value".data then (parsePV v).map .PropertyValue
  else if tag = "remark".data then some (.Remark (unescape v))
  else if tag = "ontology".data then some (.Ontology (unescape v))
  else if tag = "owl-axioms".data then some (.OwlAxioms (unescape v))
  else some (.Unreserved tag (unescape v))

/-- Parse one header clause line: split at the `": "` separator and
dispatch on the unescaped tag. -/
def parseHeaderClause (line : Text) : Option HeaderClause :=
  match splitTag line with
  | none => none
  | some (rawTag, v) => dispatchHeaderTag (unescape rawTag) v

theorem parseHeaderClause_shape (t v : Text) :
    parseHeaderClause (escape t ++ (':' :: (' ' :: v))) =
      dispatchHeaderTag t v := by
  simp [parseHeaderClause, splitTag_escape, unescape_escape_nil]

/-- Well-formedness of a header clause: identifier and prefix payloads
conform to their character classes, dates lie in their field ranges,
URLs are URLs, and an unreserved tag is not a reserved one. -/
def wfHeaderClause : HeaderClause → Prop
  | .FormatVersion _ => True
  | .DataVersion _ => True
  | .Date dt => wfDate dt
  | .SavedBy _ => True
  | .AutoGeneratedBy _ => True
  | .Import i => wfImport i
  | .Subsetdef s d => wfIdent s ∧ wfQuoted d
  | .SynonymTypedef t d _ => wfIdent t ∧ wfQuoted d
  | .DefaultNamespace ns => wfIdent ns
  | .NamespaceIdRule _ => True
  | .Idspace p u d =>
      wfPfx p ∧ isUrlText u = true ∧ ' ' ∉ u ∧ ∀ q, d = some q → wfQuoted q
  | .TreatXrefsAsEquivalent p => wfPfx p
  | .TreatXrefsAsGenusDifferentia p r c => wfPfx p ∧ wfIdent r ∧ wfIdent c
  | .TreatXrefsAsReverseGenusDifferentia p r c =>
      wfPfx p ∧ wfIdent r ∧ wfIdent c
  | .TreatXrefsAsRelationship p r => wfPfx p ∧ wfIdent r
  | .TreatXrefsAsIsA p => wfPfx p
  | .TreatXrefsAsHasSubclass p => wfPfx p
  | .PropertyValue pv => wfPV pv
  | .Remark _ => True
  | .Ontology _ => True
  | .OwlAxioms _ => True
  | .Unreserved t _ => t ∉ reservedTags

theorem parseSubsetdef_display {s : Ident} (d : Text) (hs : wfIdent s) :
    parseSubsetdef (displayIdent s ++ (' ' :: displayQuoted d)) =
      some (s, d) := by
  unfold parseSubsetdef
  rw [splitSpace_append _ (displayIdent_noSpace hs)]
  simp only [Option.bind_eq_bind, Option.some_bind,
    parseIdentText_display hs]
  have hq := scanQuoted_displayQuoted d []
  rw [List.append_nil] at hq
  rw [hq]
  simp

theorem parseSynTypedef_display {t : Ident} (d : Text)
    (sc : Option SynonymScope) (ht : wfIdent t) :
    parseSynTypedef (displayIdent t ++ (' ' :: (displayQuoted d ++
        (match sc with | some s => ' ' :: displayScope s | none => [])))) =
      some (t, d, sc) := by
  cases sc with
  | none =>
    unfold parseSynTypedef
    rw [splitSpace_append _ (displayIdent_noSpace ht)]
    simp only [Option.bind_eq_bind, Option.some_bind,
      parseIdentText_display ht]
    have hq := scanQuoted_displayQuoted d []
    rw [List.append_nil] at hq
    simp only [List.append_nil]
    rw [hq]
    simp
  | some s =>
    unfold parseSynTypedef
    rw [splitSpace_append _ (displayIdent_noSpace ht)]
    simp only [Option.bind_eq_bind, Option.some_bind,
      parseIdentText_display ht]
    rw [scanQuoted_displayQuoted]
    simp [parseScope_display]

theorem parseIdspace_display {p u : Text} (d : Option Text) (hp : wfPfx p)
    (hu : isUrlText u = true) (hsp : ' ' ∉ u) :
    parseIdspace (displayPfx p ++ (' ' :: (u ++
        (match d with | some q => ' ' :: displayQuoted q | none => [])))) =
      some (p, u, d) := by
  cases d with
  | none =>
    unfold parseIdspace
    rw [splitSpace_append _ (displayPfx_noSpace hp)]
    simp only [Option.bind_eq_bind, Option.some_bind,
      parsePfxText_display hp, List.append_nil]
    rw [splitSpace_none hsp]
    simp [hu]
  | some q =>
    unfold parseIdspace
    rw [splitSpace_append _ (displayPfx_noSpace hp)]
    simp only [Option.bind_eq_bind, Option.some_bind,
      parsePfxText_display hp]
    rw [splitSpace_append _ hsp]
    have hq := scanQuoted_displayQuoted q []
    rw [List.append_nil] at hq
    simp [hu, hq]

theorem parseGD_display {p : Text} {r c : Ident} (hp : wfPfx p)
    (hr : wfIdent r) (hc : wfIdent c) :
    parseGD (displayPfx p ++ (' ' :: (displayIdent r ++
        (' ' :: displayIdent c)))) = some (p, r, c) := by
  unfold parseGD
  rw [splitSpace_append _ (displayPfx_noSpace hp)]
  simp only [Option.bind_eq_bind, Option.some_bind, parsePfxText_display hp]
  rw [splitSpace_append _ (displayIdent_noSpace hr)]
  simp [parseIdentText_display hr, parseIdentText_display hc]

theorem parseRelXref_display {p : Text} {r : Ident} (hp : wfPfx p)
    (hr : wfIdent r) :
    parseRelXref (displayPfx p ++ (' ' :: displayIdent r)) =
      some (p, r) := by
  unfold parseRelXref
  rw [splitSpace_append _ (displayPfx_noSpace hp)]
  simp [parsePfxText_display hp, parseIdentText_display hr]

/-- Shape of a reserved-tag clause line: the literal `tag: ` piece is
the escaped tag followed by the separator. -/
theorem display_tag_shape (tag lit X : Text)
    (hlit : lit = escape tag ++ [':', ' ']) :
    lit ++ X = escape tag ++ (':' :: (' ' :: X)) := by
  subst hlit
  rw [List.append_assoc]
  rfl

/-- Parsing the serialized form of a well-formed header clause yields
the clause back (the round-trip property, on the well-formed fragment). -/
theorem parseHeaderClause_display {c : HeaderClause} (h : wfHeaderClause c) :
    parseHeaderClause c.display = some c := by
  cases c with
  | FormatVersion v =>
    simp only [HeaderClause.display]
    rw [display_tag_shape ("format-version").data ("format-version: ").data
      _ (by decide), parseHeaderClause_shape]
    simp +decide [dispatchHeaderTag, unescape_escape_nil]
  | DataVersion v =>
    simp only [HeaderClause.display]
    rw [display_tag_shape ("data-version").data ("data-version: ").data
      _ (by decide), parseHeaderClause_shape]
    simp +decide [dispatchHeaderTag, unescape_escape_nil]
  | Date dt =>
    simp only [HeaderClause.display]
    rw [display_tag_shape ("date").data ("date: ").data
      _ (by decide), parseHeaderClause_shape]
    simp +decide [dispatchHeaderTag, parseDate_display h]
  | SavedBy p =>
    simp only [HeaderClause.display]
    rw [display_tag_shape ("saved-by").data ("saved-by: ").data
      _ (by decide), parseHeaderClause_shape]
    simp +decide [dispatchHeaderTag, unescape_escape_nil]
  | AutoGeneratedBy t =>
    simp only [HeaderClause.display]
    rw [display_tag_shape ("auto-generated-by").data
      ("auto-generated-by: ").data _ (by decide), parseHeaderClause_shape]
    simp +decide [dispatchHeaderTag, unescape_escape_nil]
  | Import i =>
    simp only [HeaderClause.display]
    rw [display_tag_shape ("import").data ("import: ").data
      _ (by decide), parseHeaderClause_shape]
    simp +decide [dispatchHeaderTag, parseImport_display h]
  | Subsetdef s d =>
    simp only [HeaderClause.display]
    rw [display_tag_shape ("subsetdef").data ("subsetdef: ").data
      _ (by decide), parseHeaderClause_shape]
    simp +decide [dispatchHeaderTag, parseSubsetdef_display d h.1]
  | SynonymTypedef t d sc =>
    simp only [HeaderClause.display]
    rw [display_tag_shape ("synonymtypedef").data ("synonymtypedef: ").data
      _ (by decide), parseHeaderClause_shape]
    simp +decide [dispatchHeaderTag, parseSynTypedef_display d sc h.1]
  | DefaultNamespace ns =>
    simp only [HeaderClause.display]
    rw [display_tag_shape ("default-namespace").data
      ("default-namespace: ").data _ (by decide), parseHeaderClause_shape]
    simp +decide [dispatchHeaderTag, parseIdentText_display h]
  | NamespaceIdRule r =>
    simp only [HeaderClause.display]
    rw [display_tag_shape ("namespace-id-rule").data
      ("namespace-id-rule: ").data _ (by decide), parseHeaderClause_shape]
    simp +decide [dispatchHeaderTag, unescape_escape_nil]
  | Idspace p u d =>
    simp only [HeaderClause.display]
    rw [display_tag_shape ("idspace").data ("idspace: ").data
      _ (by decide), parseHeaderClause_shape]
    simp +decide [dispatchHeaderTag,
      parseIdspace_display d h.1 h.2.1 h.2.2.1]
  | TreatXrefsAsEquivalent p =>
    simp only [HeaderClause.display]
    rw [display_tag_shape ("treat-xrefs-as-equivalent").data
      ("treat-xrefs-as-equivalent: ").data _ (by decide),
      parseHeaderClause_shape]
    simp +decide [dispatchHeaderTag, parsePfxText_display h]
  | TreatXrefsAsGenusDifferentia p r c =>
    simp only [HeaderClause.display]
    rw [display_tag_shape ("treat-xrefs-as-genus-differentia").data
      ("treat-xrefs-as-genus-differentia: ").data _ (by decide),
      parseHeaderClause_shape]
    simp +decide [dispatchHeaderTag, parseGD_display h.1 h.2.1 h.2.2]
  | TreatXrefsAsReverseGenusDifferentia p r c =>
    simp only [HeaderClause.display]
    rw [display_tag_shape ("treat-xrefs-as-reverse-genus-differentia").data
      ("treat-xrefs-as-reverse-genus-differentia: ").data _ (by decide),
      parseHeaderClause_shape]
    simp +decide [dispatchHeaderTag, parseGD_display h.1 h.2.1 h.2.2]
  | TreatXrefsAsRelationship p r =>
    simp only [HeaderClause.display]
    rw [display_tag_shape ("treat-xrefs-as-relationship").data
      ("treat-xrefs-as-relationship: ").data _ (by decide),
      parseHeaderClause_shape]
    simp +decide [dispatchHeaderTag, parseRelXref_display h.1 h.2]
  | TreatXrefsAsIsA p =>
    simp only [HeaderClause.display]
    rw [display_tag_shape ("treat-xrefs-as-is_a").data
      ("treat-xrefs-as-is_a: ").data _ (by decide), parseHeaderClause_shape]
    simp +decide [dispatchHeaderTag, parsePfxText_display h]
  | TreatXrefsAsHasSubclass p =>
    simp only [HeaderClause.display]
    rw [display_tag_shape ("treat-xrefs-as-has-subclass").data
      ("treat-xrefs-as-has-subclass: ").data _ (by decide),
      parseHeaderClause_shape]
    simp +decide [dispatchHeaderTag, parsePfxText_display h]
  | PropertyValue pv =>
    simp only [HeaderClause.display]
    rw [display_tag_shape ("property_value").data ("property_value: ").data
      _ (by decide), parseHeaderClause_shape]
    simp +decide [dispatchHeaderTag, parsePV_display h]
  | Remark r =>
    simp only [HeaderClause.display]
    rw [display_tag_shape ("remark").data ("remark: ").data
      _ (by decide), parseHeaderClause_shape]
    simp +decide [dispatchHeaderTag, unescape_escape_nil]
  | Ontology o =>
    simp only [HeaderClause.display]
    rw [display_tag_shape ("ontology").data ("ontology: ").data
      _ (by decide), parseHeaderClause_shape]
    simp +decide [dispatchHeaderTag, unescape_escape_nil]
  | OwlAxioms a =>
    simp only [HeaderClause.display]
    rw [display_tag_shape ("owl-axioms").data ("owl-axioms: ").data
      _ (by decide), parseHeaderClause_shape]
    simp +decide [dispatchHeaderTag, unescape_escape_nil]
  | Unreserved t v =>
    simp only [HeaderClause.display]
    rw [parseHeaderClause_shape]
    have h2 : t ∉ reservedTags := h
    simp only [reservedTags, List.mem_cons, List.not_mem_nil, or_false,
      not_or] at h2
    obtain ⟨n1, n2, n3, n4, n5, n6, n7, n8, n9, n10, n11, n12, n13, n14,
      n15, n16, n17, n18, n19, n20, n21⟩ := h2
    simp [dispatchHeaderTag, n1, n2, n3, n4, n5, n6, n7, n8, n9, n10, n11,
      n12, n13, n14, n15, n16, n17, n18, n19, n20, n21, unescape_escape_nil]

/-! ## Orderings (`derive(PartialOrd, Ord)` on the AST) -/

/-- Comparison of two characters by code point (Rust compares strings
bytewise; for UTF-8 the bytewise order is the code-point order). -/
def cmpChar (a b : Char) : Ordering :=
  if a.toNat < b.toNat then .lt
  else if b.toNat < a.toNat then .gt
  else .eq

/-- Comparison of two naturals. -/
def cmpNat (a b : Nat) : Ordering :=
  if a < b then .lt else if b < a then .gt else .eq

/-- Lexicographic comparison of two strings. -/
def cmpText : Text → Text → Ordering
  | [], [] => .eq
  | [], _ :: _ => .lt
  | _ :: _, [] => .gt
  | a :: as, b :: bs => (cmpChar a b).then (cmpText as bs)

/-- Comparison of optional payloads (`None < Some`, as in Rust). -/
def cmpOption (f : α → α → Ordering) : Option α → Option α → Ordering
  | none, none => .eq
  | none, some _ => .lt
  | some _, none => .gt
  | some a, some b => f a b

/-- Derived ordering on identifiers: by variant, then by fields. -/
def cmpIdent : Ident → Ident → Ordering
  | .prefixed p1 l1, .prefixed p2 l2 => (cmpText p1 p2).then (cmpText l1 l2)
  | .prefixed _ _, .unprefixed _ => .lt
  | .prefixed _ _, .url _ => .lt
  | .unprefixed _, .prefixed _ _ => .gt
  | .unprefixed s1, .unprefixed s2 => cmpText s1 s2
  | .unprefixed _, .url _ => .lt
  | .url _, .prefixed _ _ => .gt
  | .url _, .unprefixed _ => .gt
  | .url u1, .url u2 => cmpText u1 u2

/-- Derived ordering on date-times, by field declaration order. -/
def cmpDate (a b : NaiveDateTime) : Ordering :=
  (cmpNat a.day b.day).then ((cmpNat a.month b.month).then
    ((cmpNat a.year b.year).then ((cmpNat a.hour b.hour).then
      (cmpNat a.minute b.minute))))

/-- Variant index of a synonym scope. -/
def scopeIdx : SynonymScope → Nat
  | .Exact => 0
  | .Broad => 1
  | .Narrow => 2
  | .Related => 3

def cmpScope (a b : SynonymScope) : Ordering := cmpNat (scopeIdx a) (scopeIdx b)

/-- Derived ordering on imports. -/
def cmpImport : OboImport → OboImport → Ordering
  | .Abbreviated a, .Abbreviated b => cmpIdent a b
  | .Abbreviated _, .Url _ => .lt
  | .Url _, .Abbreviated _ => .gt
  | .Url a, .Url b => cmpText a b

/-- Derived ordering on property values. -/
def cmpPV : PropertyValue → PropertyValue → Ordering
  | .Identified r1 v1, .Identified r2 v2 =>
      (cmpIdent r1 r2).then (cmpIdent v1 v2)
  | .Identified _ _, .Typed _ _ _ => .lt
  | .Typed _ _ _, .Identified _ _ => .gt
  | .Typed r1 s1 t1, .Typed r2 s2 t2 =>
      (cmpIdent r1 r2).then ((cmpText s1 s2).then (cmpIdent t1 t2))

/-- Position of a header clause variant in the fixed tag table: the
declaration order of the enum, which is the order in which the OBO
specification recommends the clauses appear in a header. -/
def HeaderClause.tagIndex : HeaderClause → Nat
  | .FormatVersion _ => 0
  | .DataVersion _ => 1
  | .Date _ => 2
  | .SavedBy _ => 3
  | .AutoGeneratedBy _ => 4
  | .Import _ => 5
  | .Subsetdef _ _ => 6
  | .SynonymTypedef _ _ _ => 7
  | .DefaultNamespace _ => 8
  | .NamespaceIdRule _ => 9
  | .Idspace _ _ _ => 10
  | .TreatXrefsAsEquivalent _ => 11
  | .TreatXrefsAsGenusDifferentia _ _ _ => 12
  | .TreatXrefsAsReverseGenusDifferentia _ _ _ => 13
  | .TreatXrefsAsRelationship _ _ => 14
  | .TreatXrefsAsIsA _ => 15
  | .TreatXrefsAsHasSubclass _ => 16
  | .PropertyValue _ => 17
  | .Remark _ => 18
  | .Ontology _ => 19
  | .OwlAxioms _ => 20
  | .Unreserved _ _ => 21

/-- The derived total order on header clauses: two clauses of the same
variant compare lexicographically by their payload fields, two clauses
of different variants compare by variant declaration order. -/
def HeaderClause.cmp : HeaderClause → HeaderClause → Ordering
  | .FormatVersion a, .FormatVersion b => cmpText a b
  | .DataVersion a, .DataVersion b => cmpText a b
  | .Date a, .Date b => cmpDate a b
  | .SavedBy a, .SavedBy b => cmpText a b
  | .AutoGeneratedBy a, .AutoGeneratedBy b => cmpText a b
  | .Import a, .Import b => cmpImport a b
  | .Subsetdef s1 d1, .Subsetdef s2 d2 =>
      (cmpIdent s1 s2).then (cmpText d1 d2)
  | .SynonymTypedef t1 d1 sc1, .SynonymTypedef t2 d2 sc2 =>
      (cmpIdent t1 t2).then ((cmpText d1 d2).then (cmpOption cmpScope sc1 sc2))
  | .DefaultNamespace a, .DefaultNamespace b => cmpIdent a b
  | .NamespaceIdRule a, .NamespaceIdRule b => cmpText a b
  | .Idspace p1 u1 d1, .Idspace p2 u2 d2 =>
      (cmpText p1 p2).then ((cmpText u1 u2).then (cmpOption cmpText d1 d2))
  | .TreatXrefsAsEquivalent a, .TreatXrefsAsEquivalent b => cmpText a b
  | .TreatXrefsAsGenusDifferentia p1 r1 c1,
      .TreatXrefsAsGenusDifferentia p2 r2 c2 =>
      (cmpText p1 p2).then ((cmpIdent r1 r2).then (cmpIdent c1 c2))
  | .TreatXrefsAsReverseGenusDifferentia p1 r1 c1,
      .TreatXrefsAsReverseGenusDifferentia p2 r2 c2 =>
      (cmpText p1 p2).then ((cmpIdent r1 r2).then (cmpIdent c1 c2))
  | .TreatXrefsAsRelationship p1 r1, .TreatXrefsAsRelationship p2 r2 =>
      (cmpText p1 p2).then (cmpIdent r1 r2)
  | .TreatXrefsAsIsA a, .TreatXrefsAsIsA b => cmpText a b
  | .TreatXrefsAsHasSubclass a, .TreatXrefsAsHasSubclass b => cmpText a b
  | .PropertyValue a, .PropertyValue b => cmpPV a b
  | .Remark a, .Remark b => cmpText a b
  | .Ontology a, .Ontology b => cmpText a b
  | .OwlAxioms a, .OwlAxioms b => cmpText a b
  | .Unreserved t1 v1, .Unreserved t2 v2 =>
      (cmpText t1 t2).then (cmpText v1 v2)
  | a, b => cmpNat a.tagIndex b.tagIndex

/-- On clauses of different variants, the order is the tag-table order. -/
theorem headerClause_cmp_tagIndex (a b : HeaderClause)
    (h : a.tagIndex ≠ b.tagIndex) :
    a.cmp b = cmpNat a.tagIndex b.tagIndex := by
  cases a <;> cases b <;> first | rfl | exact absurd rfl h

/-! ## Qualifiers (`ast::qualifier`) -/

/-- A qualifier, a `key=value` trailing modifier; the key is a relation
identifier and the value a quoted string. -/
structure Qualifier where
  key : Ident
  value : Text
deriving DecidableEq

/-- The derived total order on qualifiers: lexicographic by
`(key, value)`. -/
def Qualifier.cmp (a b : Qualifier) : Ordering :=
  (cmpIdent a.key b.key).then (cmpText a.value b.value)

/-- Serialization `key=value` of a qualifier. -/
def Qualifier.display (q : Qualifier) : Text :=
  displayIdent q.key ++ ('=' :: displayQuoted q.value)

/-- Serialization of a qualifier list: `{q1, q2, …}`. -/
def displayQualifierList (l : List Qualifier) : Text :=
  lbrace :: (List.intercalate (", ").data (l.map Qualifier.display)) ++ [rbrace]

theorem Ordering.then_swap (o1 o2 : Ordering) :
    (o1.then o2).swap = o1.swap.then o2.swap := by
  cases o1 <;> rfl

theorem cmpNat_swap (a b : Nat) : (cmpNat a b).swap = cmpNat b a := by
  unfold cmpNat
  split_ifs <;> first | rfl | omega

theorem cmpChar_swap (a b : Char) : (cmpChar a b).swap = cmpChar b a := by
  unfold cmpChar
  split_ifs <;> first | rfl | omega

theorem cmpText_swap : ∀ a b : Text, (cmpText a b).swap = cmpText b a := by
  intro a
  induction a with
  | nil => intro b; cases b <;> rfl
  | cons c as ih =>
    intro b
    cases b with
    | nil => rfl
    | cons d bs =>
      show ((cmpChar c d).then (cmpText as bs)).swap = _
      rw [Ordering.then_swap, cmpChar_swap, ih]
      rfl

theorem cmpIdent_swap (a b : Ident) : (cmpIdent a b).swap = cmpIdent b a := by
  cases a <;> cases b <;>
    simp only [cmpIdent, Ordering.then_swap, cmpText_swap] <;> rfl

theorem Qualifier.cmp_swap (a b : Qualifier) :
    (a.cmp b).swap = b.cmp a := by
  unfold Qualifier.cmp
  rw [Ordering.then_swap, cmpIdent_swap, cmpText_swap]

/-- `cmp` is reflexive (`eq` on equal arguments). -/
theorem cmpText_self : ∀ a : Text, cmpText a a = .eq := by
  intro a
  induction a with
  | nil => rfl
  | cons c as ih =>
    show (cmpChar c c).then (cmpText as as) = .eq
    have : cmpChar c c = .eq := by unfold cmpChar; simp
    rw [this, ih]
    rfl

/-- Boolean `≤` used by the sort: not strictly greater. -/
def Qualifier.le (a b : Qualifier) : Bool := !(a.cmp b == .gt)

theorem Qualifier.le_total (a b : Qualifier) :
    a.le b = true ∨ b.le a = true := by
  by_cases h : a.cmp b = .gt
  · right
    have hs := a.cmp_swap b
    rw [h] at hs
    unfold Qualifier.le
    rw [← hs]
    decide
  · left
    unfold Qualifier.le
    cases hc : a.cmp b
    · rfl
    · rfl
    · exact absurd hc h

/-- Sorting of a qualifier list, modelling `Vec::sort_unstable` by the
derived order (the order is antisymmetric up to structural equality,
so any correct comparison sort computes the same list). -/
def insertQualifier (x : Qualifier) : List Qualifier → List Qualifier
  | [] => [x]
  | y :: ys => if x.le y then x :: y :: ys else y :: insertQualifier x ys

/-- `QualifierList::sort` of the source. -/
def sortQualifierList (l : List Qualifier) : List Qualifier :=
  l.foldr insertQualifier []

/-- Sortedness of a qualifier list: each element is `≤` the next. -/
def QSorted (l : List Qualifier) : Prop :=
  List.Chain' (fun a b => a.le b = true) l

theorem insertQualifier_head (x : Qualifier) (l : List Qualifier) :
    (insertQualifier x l).head? = some x ∨
      (insertQualifier x l).head? = l.head? := by
  cases l with
  | nil => exact Or.inl rfl
  | cons y ys =>
    unfold insertQualifier
    by_cases hxy : x.le y = true
    · rw [if_pos hxy]; exact Or.inl rfl
    · rw [if_neg hxy]; exact Or.inr rfl

theorem insertQualifier_sorted {l : List Qualifier} (x : Qualifier)
    (h : QSorted l) : QSorted (insertQualifier x l) := by
  induction l with
  | nil => exact List.chain'_singleton x
  | cons y ys ih =>
    unfold insertQualifier
    by_cases hxy : x.le y = true
    · rw [if_pos hxy]
      exact List.chain'_cons.mpr ⟨hxy, h⟩
    · rw [if_neg hxy]
      have hyx : y.le x = true := by
        rcases Qualifier.le_total x y with hx | hx
        · exact absurd hx hxy
        · exact hx
      have htail : QSorted (insertQualifier x ys) :=
        ih ((List.chain'_cons'.mp h).2)
      cases hys : insertQualifier x ys with
      | nil =>
        cases ys with
        | nil => simp [insertQualifier] at hys
        | cons z zs =>
          unfold insertQualifier at hys
          split_ifs at hys
      | cons w ws =>
        refine List.chain'_cons.mpr ⟨?_, hys ▸ htail⟩
        rcases insertQualifier_head x ys with hh | hh
        · rw [hys] at hh
          simp only [List.head?_cons, Option.some.injEq] at hh
          rw [← hh] at hyx
          exact hyx
        · rw [hys] at hh
          cases ys with
          | nil => simp at hh
          | cons z zs =>
            simp only [List.head?_cons, Option.some.injEq] at hh
            have := (List.chain'_cons.mp h).1
            rw [← hh] at this
            exact this

theorem sortQualifierList_sorted (l : List Qualifier) :
    QSorted (sortQualifierList l) := by
  induction l with
  | nil => exact List.chain'_nil
  | cons x xs ih => exact insertQualifier_sorted x ih

theorem sortQualifierList_of_sorted :
    ∀ {l : List Qualifier}, QSorted l → sortQualifierList l = l := by
  intro l
  induction l with
  | nil => intro _; rfl
  | cons x xs ih =>
    intro h
    show insertQualifier x (sortQualifierList xs) = x :: xs
    rw [ih ((List.chain'_cons'.mp h).2)]
    cases xs with
    | nil => rfl
    | cons y ys =>
      have hxy : x.le y = true := (List.chain'_cons.mp h).1
      unfold insertQualifier
      rw [if_pos hxy]

/-- C8: sorting a qualifier list by the total `(key, value)` order is
idempotent — applying the sort twice yields the same list as applying
it once. -/
theorem sortQualifierList_idem (l : List Qualifier) :
    sortQualifierList (sortQualifierList l) = sortQualifierList l :=
  sortQualifierList_of_sorted (sortQualifierList_sorted l)

/-! ## Typedef clauses (`ast::typedef::clause`) and their payloads -/

def trimStartText (t : Text) : Text := t.dropWhile Char.isWhitespace

def trimEndText (t : Text) : Text := (t.reverse.dropWhile Char.isWhitespace).reverse

def trimText (t : Text) : Text := trimEndText (trimStartText t)

/-- Parse a boolean payload (canonical text `true` / `false`). -/
def parseBool (v : Text) : Option Bool :=
  if v = "true".data then some true
  else if v = "false".data then some false
  else none

def displayBool (b : Bool) : Text := if b then "true".data else "false".data

/-- Parse two space-separated identifiers. -/
def parseIdentPair (v : Text) : Option (Ident × Ident) := do
  let (tok, rest) ← splitSpace v
  let a ← parseIdentText tok
  let b ← parseIdentText rest
  some (a, b)

/-- An external cross-reference: an identifier with an optional quoted
description. -/
structure Xref where
  id : Ident
  description : Option Text
deriving DecidableEq

abbrev XrefList := List Xref

def parseXref (t : Text) : Option Xref :=
  match splitSpace t with
  | none => (parseIdentText t).map fun id => ⟨id, none⟩
  | some (tok, rest) => do
      let id ← parseIdentText tok
      let (d, r2) ← scanQuoted rest
      if r2 = [] then some ⟨id, some d⟩ else none

def consPart (c : Char) : List Text → List Text
  | [] => [[c]]
  | p :: ps => (c :: p) :: ps

/-- Split on unescaped commas (xref list separators); parts keep their
escape pairs verbatim. -/
def splitCommaAux : Bool → Text → List Text
  | _, [] => [[]]
  | true, c :: rest => consPart c (splitCommaAux false rest)
  | false, c :: rest =>
    if c = '\\' then consPart c (splitCommaAux true rest)
    else if c = ',' then [] :: splitCommaAux false rest
    else consPart c (splitCommaAux false rest)

def parseXrefList (t : Text) : Option XrefList :=
  if t.head? = some '[' ∧ t.getLast? = some ']' then
    let inner := (t.drop 1).dropLast
    if trimText inner = [] then some []
    else ((splitCommaAux false inner).map trimText).mapM parseXref
  else none

def displayXref (x : Xref) : Text :=
  displayIdent x.id ++
    (match x.description with
     | some d => ' ' :: displayQuoted d
     | none => [])

def displayXrefList (xs : XrefList) : Text :=
  '[' :: (List.intercalate (", ").data (xs.map displayXref)) ++ [']']

/-- A definition payload: quoted text plus cross-references. -/
structure Definition where
  text : Text
  xrefs : XrefList
deriving DecidableEq

def parseDefinition (v : Text) : Option Definition := do
  let (txt, rest) ← scanQuoted v
  match rest with
  | [] => some ⟨txt, []⟩
  | ' ' :: xl => (parseXrefList xl).map fun xs => Definition.mk txt xs
  | _ => none

def displayDefinition (d : Definition) : Text :=
  displayQuoted d.text ++ (' ' :: displayXrefList d.xrefs)

/-- A synonym payload: quoted text, scope, optional synonym type, and
cross-references. -/
structure Synonym where
  text : Text
  scope : SynonymScope
  ty : Option Ident
  xrefs : XrefList
deriving DecidableEq

def parseSynonym (v : Text) : Option Synonym := do
  let (txt, rest) ← scanQuoted v
  match rest with
  | ' ' :: r1 =>
    match splitSpace r1 with
    | none => none
    | some (sctok, r2) => do
      let sc ← parseScope sctok
      if r2.head? = some '[' then
        (parseXrefList r2).map fun xs => Synonym.mk txt sc none xs
      else do
        let (tytok, r3) ← splitSpace r2
        let ty ← parseIdentText tytok
        (parseXrefList r3).map fun xs => Synonym.mk txt sc (some ty) xs
  | _ => none

def displaySynonym (s : Synonym) : Text :=
  displayQuoted s.text ++ (' ' :: (displayScope s.scope ++
    ((match s.ty with
      | some t => ' ' :: displayIdent t
      | none => []) ++ (' ' :: displayXrefList s.xrefs))))

/-- Declared multiplicity of a clause within its frame. -/
inductive Cardinality
  | ZeroOrOne
  | One
  | Any
  | NotOne
deriving DecidableEq

/-- A clause appearing in a typedef frame, mirroring the `TypedefClause`
enum of the source (`Box` payloads inlined). -/
inductive TypedefClause
  | IsAnonymous (b : Bool)
  | Name (name : Text)
  | Namespace (ns : Ident)
  | AltId (id : Ident)
  | Def (d : Definition)
  | Comment (c : Text)
  | Subset (s : Ident)
  | Synonym (s : Synonym)
  | Xref (x : Xref)
  | PropertyValue (pv : PropertyValue)
  | Domain (d : Ident)
  | Range (r : Ident)
  | Builtin (b : Bool)
  | HoldsOverChain (r1 r2 : Ident)
  | IsAntiSymmetric (b : Bool)
  | IsCyclic (b : Bool)
  | IsReflexive (b : Bool)
  | IsSymmetric (b : Bool)
  | IsAsymmetric (b : Bool)
  | IsTransitive (b : Bool)
  | IsFunctional (b : Bool)
  | IsInverseFunctional (b : Bool)
  | IsA (r : Ident)
  | IntersectionOf (r : Ident)
  | UnionOf (r : Ident)
  | EquivalentTo (r : Ident)
  | DisjointFrom (r : Ident)
  | InverseOf (r : Ident)
  | TransitiveOver (r : Ident)
  | EquivalentToChain (r1 r2 : Ident)
  | DisjointOver (r : Ident)
  | Relationship (r1 r2 : Ident)
  | IsObsolete (b : Bool)
  | ReplacedBy (r : Ident)
  | Consider (id : Ident)
  | CreatedBy (n : Text)
  | CreationDate (d : Text)
  | ExpandAssertionTo (d : Text) (x : XrefList)
  | ExpandExpressionTo (d : Text) (x : XrefList)
  | IsMetadataTag (b : Bool)
  | IsClassLevel (b : Bool)
deriving DecidableEq

/-- The declared cardinality of each typedef clause variant, from the
`#[clause(cardinality = …)]` attributes of the source; a variant with
no attribute has cardinality `Any`. -/
def TypedefClause.cardinality : TypedefClause → Cardinality
  | .IsAnonymous _ => .ZeroOrOne
  | .Name _ => .ZeroOrOne
  | .Namespace _ => .One
  | .AltId _ => .Any
  | .Def _ => .ZeroOrOne
  | .Comment _ => .ZeroOrOne
  | .Subset _ => .Any
  | .Synonym _ => .Any
  | .Xref _ => .Any
  | .PropertyValue _ => .Any
  | .Domain _ => .ZeroOrOne
  | .Range _ => .ZeroOrOne
  | .Builtin _ => .ZeroOrOne
  | .HoldsOverChain _ _ => .Any
  | .IsAntiSymmetric _ => .ZeroOrOne
  | .IsCyclic _ => .ZeroOrOne
  | .IsReflexive _ => .ZeroOrOne
  | .IsSymmetric _ => .ZeroOrOne
  | .IsAsymmetric _ => .ZeroOrOne
  | .IsTransitive _ => .ZeroOrOne
  | .IsFunctional _ => .ZeroOrOne
  | .IsInverseFunctional _ => .ZeroOrOne
  | .IsA _ => .Any
  | .IntersectionOf _ => .NotOne
  | .UnionOf _ => .NotOne
  | .EquivalentTo _ => .Any
  | .DisjointFrom _ => .Any
  | .InverseOf _ => .ZeroOrOne
  | .TransitiveOver _ => .Any
  | .EquivalentToChain _ _ => .Any
  | .DisjointOver _ => .Any
  | .Relationship _ _ => .Any
  | .IsObsolete _ => .ZeroOrOne
  | .ReplacedBy _ => .Any
  | .Consider _ => .Any
  | .CreatedBy _ => .ZeroOrOne
  | .CreationDate _ => .ZeroOrOne
  | .ExpandAssertionTo _ _ => .Any
  | .ExpandExpressionTo _ _ => .Any
  | .IsMetadataTag _ => .ZeroOrOne
  | .IsClassLevel _ => .ZeroOrOne

/-- Dispatch on the tag of a typedef clause line, mirroring the rule
dispatch of `FromPair for TypedefClause`; an unknown tag is a syntax
error (there is no unreserved fallback for typedef clauses). -/
def dispatchTypedefTag (tag v : Text) : Option TypedefClause :=
  if tag = "is_anonymous".data then (parseBool v).map .IsAnonymous
  else if tag = "name".data then some (.Name (unescape v))
  else if tag = "namespace".data then (parseIdentText v).map .Namespace
  else if tag = "alt_id".data then (parseIdentText v).map .AltId
  else if tag = "def".data then (parseDefinition v).map .Def
  else if tag = "comment".data then some (.Comment (unescape v))
  else if tag = "subset".data then (parseIdentText v).map .Subset
  else if tag = "synonym".data then (parseSynonym v).map .Synonym
  else if tag = "xref".data then (parseXref v).map .Xref
  else if tag = "property_value".data then (parsePV v).map .PropertyValue
  else if tag = "domain".data then (parseIdentText v).map .Domain
  else if tag = "range".data then (parseIdentText v).map .Range
  else if tag = "builtin".data then (parseBool v).map .Builtin
  else if tag = "holds_over_chain".data then
    (parseIdentPair v).map fun p => .HoldsOverChain p.1 p.2
  else if tag = "is_anti_symmetric".data then (parseBool v).map .IsAntiSymmetric
  else if tag = "is_cyclic".data then (parseBool v).map .IsCyclic
  else if tag = "is_reflexive".data then (parseBool v).map .IsReflexive
  else if tag = "is_symmetric".data then (parseBool v).map .IsSymmetric
  else if tag = "is_asymmetric".data then (parseBool v).map .IsAsymmetric
  else if tag = "is_transitive".data then (parseBool v).map .IsTransitive
  else if tag = "is_functional".data then (parseBool v).map .IsFunctional
  else if tag = "is_inverse_functional".data then
    (parseBool v).map .IsInverseFunctional
  else if tag = "is_a".data then (parseIdentText v).map .IsA
  else if tag = "intersection_of".data then (parseIdentText v).map .IntersectionOf
  else if tag = "union_of".data then (parseIdentText v).map .UnionOf
  else if tag = "equivalent_to".data then (parseIdentText v).map .EquivalentTo
  else if tag = "disjoint_from".data then (parseIdentText v).map .DisjointFrom
  else if tag = "inverse_of".data then (parseIdentText v).map .InverseOf
  else if tag = "transitive_over".data then (parseIdentText v).map .TransitiveOver
  else if tag = "equivalent_to_chain".data then
    (parseIdentPair v).map fun p => .EquivalentToChain p.1 p.2
  else if tag = "disjoint_over".data then (parseIdentText v).map .DisjointOver
  else if tag = "relationship".data then
    (parseIdentPair v).map fun p => .Relationship p.1 p.2
  else if tag = "is_obsolete".data then (parseBool v).map .IsObsolete
  else if tag = "replaced_by".data then (parseIdentText v).map .ReplacedBy
  else if tag = "consider".data then (parseIdentText v).map .Consider
  else if tag = "created_by".data then some (.CreatedBy (unescape v))
  else if tag = "creation_date".data then some (.CreationDate v)
  else if tag = "expand_assertion_to".data then do
    let (d, rest) ← scanQuoted v
    match rest with
    | ' ' :: xl => (parseXrefList xl).map (.ExpandAssertionTo d)
    | _ => none
  else if tag = "expand_expression_to".data then do
    let (d, rest) ← scanQuoted v
    match rest with
    | ' ' :: xl => (parseXrefList xl).map (.ExpandExpressionTo d)
    | _ => none
  else if tag = "is_metadata_tag".data then (parseBool v).map .IsMetadataTag
  else if tag = "is_class_level".data then (parseBool v).map .IsClassLevel
  else none

/-- Parse one typedef clause line. -/
def parseTypedefClause (line : Text) : Option TypedefClause :=
  match splitTag line with
  | none => none
  | some (rawTag, v) => dispatchTypedefTag (unescape rawTag) v

/-- Serialization of a typedef clause: `tag: payload`. -/
def displayTypedefClause : TypedefClause → Text
  | .IsAnonymous b => "is_anonymous: ".data ++ displayBool b
  | .Name n => "name: ".data ++ escape n
  | .Namespace ns => "namespace: ".data ++ displayIdent ns
  | .AltId id => "alt_id: ".data ++ displayIdent id
  | .Def d => "def: ".data ++ displayDefinition d
  | .Comment c => "comment: ".data ++ escape c
  | .Subset s => "subset: ".data ++ displayIdent s
  | .Synonym s => "synonym: ".data ++ displaySynonym s
  | .Xref x => "xref: ".data ++ displayXref x
  | .PropertyValue pv => "property_value: ".data ++ displayPV pv
  | .Domain d => "domain: ".data ++ displayIdent d
  | .Range r => "range: ".data ++ displayIdent r
  | .Builtin b => "builtin: ".data ++ displayBool b
  | .HoldsOverChain a b =>
      "holds_over_chain: ".data ++ (displayIdent a ++ (' ' :: displayIdent b))
  | .IsAntiSymmetric b => "is_anti_symmetric: ".data ++ displayBool b
  | .IsCyclic b => "is_cyclic: ".data ++ displayBool b
  | .IsReflexive b => "is_reflexive: ".data ++ displayBool b
  | .IsSymmetric b => "is_symmetric: ".data ++ displayBool b
  | .IsAsymmetric b => "is_asymmetric: ".data ++ displayBool b
  | .IsTransitive b => "is_transitive: ".data ++ displayBool b
  | .IsFunctional b => "is_functional: ".data ++ displayBool b
  | .IsInverseFunctional b => "is_inverse_functional: ".data ++ displayBool b
  | .IsA r => "is_a: ".data ++ displayIdent r
  | .IntersectionOf r => "intersection_of: ".data ++ displayIdent r
  | .UnionOf r => "union_of: ".data ++ displayIdent r
  | .EquivalentTo r => "equivalent_to: ".data ++ displayIdent r
  | .DisjointFrom r => "disjoint_from: ".data ++ displayIdent r
  | .InverseOf r => "inverse_of: ".data ++ displayIdent r
  | .TransitiveOver r => "transitive_over: ".data ++ displayIdent r
  | .EquivalentToChain a b =>
      "equivalent_to_chain: ".data ++ (displayIdent a ++ (' ' :: displayIdent b))
  | .DisjointOver r => "disjoint_over: ".data ++ displayIdent r
  | .Relationship a b =>
      "relationship: ".data ++ (displayIdent a ++ (' ' :: displayIdent b))
  | .IsObsolete b => "is_obsolete: ".data ++ displayBool b
  | .ReplacedBy r => "replaced_by: ".data ++ displayIdent r
  | .Consider id => "consider: ".data ++ displayIdent id
  | .CreatedBy n => "created_by: ".data ++ escape n
  | .CreationDate d => "creation_date: ".data ++ d
  | .ExpandAssertionTo d x =>
      "expand_assertion_to: ".data ++ (displayQuoted d ++ (' ' :: displayXrefList x))
  | .ExpandExpressionTo d x =>
      "expand_expression_to: ".data ++ (displayQuoted d ++ (' ' :: displayXrefList x))
  | .IsMetadataTag b => "is_metadata_tag: ".data ++ displayBool b
  | .IsClassLevel b => "is_class_level: ".data ++ displayBool b

/-! ## Frames and documents (`ast::*`, `lib.rs`) -/

/-- Modelled from the spec: the term and instance clause taxonomies are
enumerations analogous to the typedef one (§4.3); the claims below only
depend on the line-level `tag: value` structure of those clauses, so
they are retained as parsed tag/value pairs. -/
structure GenericClause where
  tag : Text
  value : Text
deriving DecidableEq

def parseGenericClause (line : Text) : Option GenericClause :=
  (splitTag line).map fun p => ⟨unescape p.1, p.2⟩

def displayGenericClause (c : GenericClause) : Text :=
  escape c.tag ++ (':' :: (' ' :: c.value))

/-- An entity frame: a stanza kind, its identifier, and its clauses. -/
inductive EntityFrame
  | Term (id : Ident) (clauses : List GenericClause)
  | Typedef (id : Ident) (clauses : List TypedefClause)
  | Instance (id : Ident) (clauses : List GenericClause)
deriving DecidableEq

/-- Modelled from the spec: an entity frame is parsed from its
(trimmed, non-blank) lines as a `[Term]` / `[Typedef]` / `[Instance]`
stanza line, the mandatory `id:` clause line, then the remaining clause
lines. -/
def parseEntityLines : List Text → Option EntityFrame
  | stanza :: idline :: rest => do
      let idv ←
        match splitTag idline with
        | some (t, v) => if unescape t = "id".data then some v else none
        | none => none
      let id ← parseIdentText idv
      if stanza = "[Term]".data then
        (rest.mapM parseGenericClause).map (.Term id)
      else if stanza = "[Typedef]".data then
        (rest.mapM parseTypedefClause).map (.Typedef id)
      else if stanza = "[Instance]".data then
        (rest.mapM parseGenericClause).map (.Instance id)
      else none
  | _ => none

/-- Parse an entity frame from a buffer of raw lines (as accumulated by
the streaming reader or sliced by the document grammar): each line is
trimmed and blank lines are dropped before frame parsing. -/
def parseEntityBuf (buf : List Text) : Option EntityFrame :=
  parseEntityLines ((buf.map trimText).filter fun l => !l.isEmpty)

def EntityFrame.display : EntityFrame → Text
  | .Term id cls =>
      "[Term]\n".data ++ ("id: ".data ++ (displayIdent id ++
        ('\n' :: cls.flatMap fun c => displayGenericClause c ++ ['\n'])))
  | .Typedef id cls =>
      "[Typedef]\n".data ++ ("id: ".data ++ (displayIdent id ++
        ('\n' :: cls.flatMap fun c => displayTypedefClause c ++ ['\n'])))
  | .Instance id cls =>
      "[Instance]\n".data ++ ("id: ".data ++ (displayIdent id ++
        ('\n' :: cls.flatMap fun c => displayGenericClause c ++ ['\n'])))

/-- A frame yielded by the streaming reader. -/
inductive Frame
  | Header (h : List HeaderClause)
  | Entity (e : EntityFrame)
deriving DecidableEq

/-- An OBO document: a header frame followed by entity frames. -/
structure OboDoc where
  header : List HeaderClause
  entities : List EntityFrame
deriving DecidableEq

/-- Serialization of a header frame: one clause per line. -/
def displayHeaderFrame (h : List HeaderClause) : Text :=
  h.flatMap fun c => c.display ++ ['\n']

/-- `to_writer` of `lib.rs`: write the header, then a single newline
separator exactly when both the header and the entity list are
non-empty, then the entity frames. -/
def to_writer (doc : OboDoc) : Text :=
  displayHeaderFrame doc.header ++
    ((if doc.header ≠ [] ∧ doc.entities ≠ [] then ['\n'] else []) ++
      doc.entities.flatMap EntityFrame.display)

/-! ## The streaming frame reader (`parser::sequential`) -/

abbrev Line := Text

/-- Grammar rule names (the subset the core needs). -/
inductive Rule
  | OboDoc
  | HeaderFrame
  | HeaderClause
  | EntitySingle
  | TermFrame
  | TypedefFrame
  | InstanceFrame
  | Boolean
  | Iri
  | UnquotedString
  | QuotedString
  | Ident
  | PrefixedId
  | UnprefixedId
  | NaiveDateTime
  | Qualifier
  | QualifierList
  | XrefList
deriving DecidableEq

/-- A syntax error; `with_offsets` fills the two offset fields. -/
structure SyntaxErr where
  lineOffset : Option Nat
  byteOffset : Option Nat
deriving DecidableEq

/-- The error enum of the library (the variants the claims need). -/
inductive OboError
  | SyntaxError (e : SyntaxErr)
  | UnexpectedRule (actual expected : Rule)
deriving DecidableEq

/-- One `read_line` call on the buffered stream: the next line, or the
empty string at end of stream. -/
def readLine : List Line → Line × List Line
  | [] => ([], [])
  | l :: ls => (l, ls)

/-- Whether a line opens a stanza: its first non-whitespace character is
`[` (the source tests `line.trim().starts_with('[')` in the header loop
and `line.trim_start().starts_with('[')` in the entity loop; both agree
with this test). -/
def isBoundaryB (l : Line) : Bool := (trimStartText l).head? == some '['

/-- The state of a `SequentialReader`: the remaining stream, the pending
line buffer, the two offset counters, and the eagerly parsed header. -/
structure RState where
  rest : List Line
  line : Line
  offset : Nat
  lineOffset : Nat
  header : Option (Except OboError Frame)

/-- The header loop of `SequentialReader::new`: parse header clauses
line by line until the first stanza line or end of stream, counting
consumed lines and bytes; a clause parse error is recorded with the
offsets reached. -/
def headerLoop : List Line → Nat → Nat → List HeaderClause → RState
  | [], offset, lineOffset, acc =>
      ⟨[], [], offset, lineOffset, some (.ok (.Header acc))⟩
  | line :: rest', offset, lineOffset, acc =>
      if isBoundaryB line = false ∧ trimStartText line ≠ [] then
        match parseHeaderClause (trimText line) with
        | some c =>
            headerLoop rest' (offset + line.length) (lineOffset + 1) (acc ++ [c])
        | none =>
            ⟨rest', line, offset, lineOffset,
              some (.error (.SyntaxError ⟨some lineOffset, some offset⟩))⟩
      else if isBoundaryB line = true ∨ line = [] then
        ⟨rest', line, offset, lineOffset, some (.ok (.Header acc))⟩
      else
        headerLoop rest' (offset + line.length) (lineOffset + 1) acc

/-- `SequentialReader::new`. -/
def newReader (input : List Line) : RState :=
  headerLoop input 0 0 []

/-- The outcome of one `next()` call that yielded an entity frame. -/
structure StepResult where
  res : Except OboError Frame
  line : Line
  rest : List Line
  lineOffset : Nat
  offset : Nat

/-- The entity loop of `Iterator::next`: push the current line into the
frame buffer (later lines are pushed with their leading whitespace
stripped), read ahead until the next stanza line or end of stream, then
parse the buffer as a single entity frame and update the reader offsets
the way the source does: the emitted frame adds `local_line_offset + 1`
lines and `local_offset + line.len()` bytes, where `line` is the line
left pending in the buffer. -/
def entityLoop (cur : Text) (buf : List Text)
    (localLO localBO lineOffset offset : Nat) : List Line → StepResult
  | [] =>
      ⟨match parseEntityBuf (buf ++ [cur]) with
        | some e => .ok (.Entity e)
        | none => .error (.SyntaxError ⟨some lineOffset, some offset⟩),
       [], [], lineOffset + localLO + 1, offset + localBO + 0⟩
  | line' :: rest' =>
      if isBoundaryB line' = true ∨ line' = [] then
        ⟨match parseEntityBuf (buf ++ [cur]) with
          | some e => .ok (.Entity e)
          | none => .error (.SyntaxError ⟨some lineOffset, some offset⟩),
         line', rest', lineOffset + localLO + 1, offset + localBO + line'.length⟩
      else
        entityLoop (trimStartText line') (buf ++ [cur]) (localLO + 1)
          (localBO + line'.length) lineOffset offset rest'

/-- `Iterator::next` for the reader: the header is yielded first (once),
then one entity frame per call, then `none`. -/
def nextFrame (st : RState) : Option (Except OboError Frame) × RState :=
  match st.header with
  | some res => (some res, ⟨st.rest, st.line, st.offset, st.lineOffset, none⟩)
  | none =>
    if st.line = [] then (none, st)
    else
      let r := entityLoop st.line [] 0 0 st.lineOffset st.offset st.rest
      (some r.res, ⟨r.rest, r.line, r.offset, r.lineOffset, none⟩)

theorem entityLoop_consumes (cur : Text) (buf : List Text)
    (lLO lBO lo bo : Nat) (ls : List Line) :
    (entityLoop cur buf lLO lBO lo bo ls).rest.length +
      (if (entityLoop cur buf lLO lBO lo bo ls).line = [] then 0 else 1) ≤
      ls.length := by
  induction ls generalizing cur buf lLO lBO with
  | nil => simp [entityLoop]
  | cons line' rest' ih =>
    unfold entityLoop
    by_cases hb : isBoundaryB line' = true ∨ line' = []
    · rw [if_pos hb]
      by_cases hl : line' = [] <;> simp [hl] <;> omega
    · rw [if_neg hb]
      calc (entityLoop (trimStartText line') (buf ++ [cur]) (lLO + 1)
              (lBO + line'.length) lo bo rest').rest.length +
            (if (entityLoop (trimStartText line') (buf ++ [cur]) (lLO + 1)
              (lBO + line'.length) lo bo rest').line = [] then 0 else 1) ≤
            rest'.length := ih _ _ _ _
        _ ≤ (line' :: rest').length := by simp

/-- Drain the reader: the list of all frames it yields. -/
def collectFrames (st : RState) : List (Except OboError Frame) :=
  match h : st.header with
  | some res =>
      res :: collectFrames ⟨st.rest, st.line, st.offset, st.lineOffset, none⟩
  | none =>
    if hl : st.line = [] then []
    else
      let r := entityLoop st.line [] 0 0 st.lineOffset st.offset st.rest
      r.res :: collectFrames ⟨r.rest, r.line, r.offset, r.lineOffset, none⟩
termination_by st.rest.length + (if st.line = [] then 0 else 1) +
  (if st.header.isSome then 1 else 0)
decreasing_by
  · simp [h]
  · have hc := entityLoop_consumes st.line [] 0 0 st.lineOffset st.offset st.rest
    simp only [h, Option.isSome_none, Bool.false_eq_true, if_false, hl,
      if_neg hl]
    omega

/-- `TryFrom<SequentialReader> for OboDoc`: the first frame becomes the
header, the remaining frames become the entity list (the source calls
`into_header_frame().unwrap()` / `into_entity_frame().unwrap()`; the
unreachable mismatches are modelled as plain errors). -/
def intoEntityResult (r : Except OboError Frame) :
    Except OboError EntityFrame :=
  match r with
  | .error e => .error e
  | .ok (.Entity e) => .ok e
  | .ok (.Header _) => .error (.SyntaxError ⟨none, none⟩)

def oboDocFromLines (input : List Line) : Except OboError OboDoc :=
  match collectFrames (newReader input) with
  | [] => .error (.SyntaxError ⟨none, none⟩)
  | first :: items =>
    match first with
    | .error e => .error e
    | .ok (.Header h) => (items.mapM intoEntityResult).map fun es => ⟨h, es⟩
    | .ok (.Entity _) => .error (.SyntaxError ⟨none, none⟩)

/-! ## The one-shot document parser (`OboDoc::from_str`) -/

/-- Modelled from the spec: the `OboDoc` grammar rule derives a header
frame (the clause lines before the first stanza line, blank lines
skipped) followed by entity frames (each stanza line with the clause
lines that follow it). -/
def parseHeaderLines : List Line → Except OboError (List HeaderClause)
  | [] => .ok []
  | l :: ls =>
    if trimStartText l = [] then parseHeaderLines ls
    else
      match parseHeaderClause (trimText l) with
      | some c => (parseHeaderLines ls).map (c :: ·)
      | none => .error (.SyntaxError ⟨none, none⟩)

theorem length_dropWhile_le (p : α → Bool) (l : List α) :
    (l.dropWhile p).length ≤ l.length := by
  induction l with
  | nil => simp
  | cons a as ih =>
    rw [List.dropWhile_cons]
    by_cases hp : p a
    · rw [if_pos hp]; exact Nat.le_succ_of_le ih
    · rw [if_neg hp]

/-- Slice the entity region into frames: each frame starts at a stanza
line and extends to the next stanza line. -/
def groupFrames : List Line → List (List Line)
  | [] => []
  | l :: ls =>
      (l :: ls.takeWhile fun x => !(isBoundaryB x)) ::
        groupFrames (ls.dropWhile fun x => !(isBoundaryB x))
termination_by lines => lines.length
decreasing_by
  simp only [List.length_cons]
  exact Nat.lt_succ_of_le (length_dropWhile_le _ _)

def parseEntityGroup (g : List Line) : Except OboError EntityFrame :=
  match parseEntityBuf g with
  | some e => .ok e
  | none => .error (.SyntaxError ⟨none, none⟩)

def parseOboDocLines (lines : List Line) : Except OboError OboDoc := do
  let hdr ← parseHeaderLines (lines.takeWhile fun x => !(isBoundaryB x))
  let ents ← (groupFrames (lines.dropWhile fun x => !(isBoundaryB x))).mapM
    parseEntityGroup
  .ok ⟨hdr, ents⟩

/-- Split a text into its `read_line` segments: every line keeps its
trailing newline, a final segment without one is kept as is.  The
accumulator holds the current line in reverse. -/
def splitLinesAux (curRev : Text) : Text → List Line
  | [] => if curRev = [] then [] else [curRev.reverse]
  | c :: rest =>
    if c = '\n' then (curRev.reverse ++ ['\n']) :: splitLinesAux [] rest
    else splitLinesAux (c :: curRev) rest

def splitLines (t : Text) : List Line := splitLinesAux [] t

theorem splitLinesAux_ne_nil (t : Text) :
    ∀ curRev, ∀ l ∈ splitLinesAux curRev t, l ≠ [] := by
  induction t with
  | nil =>
    intro curRev l hl
    unfold splitLinesAux at hl
    by_cases hc : curRev = []
    · rw [if_pos hc] at hl; simp at hl
    · rw [if_neg hc] at hl
      simp only [List.mem_singleton] at hl
      subst hl
      simpa using hc
  | cons c rest ih =>
    intro curRev l hl
    unfold splitLinesAux at hl
    by_cases hc : c = '\n'
    · rw [if_pos hc] at hl
      rcases List.mem_cons.mp hl with rfl | hl
      · simp
      · exact ih [] l hl
    · rw [if_neg hc] at hl
      exact ih (c :: curRev) l hl

theorem splitLines_ne_nil (t : Text) : ∀ l ∈ splitLines t, l ≠ [] :=
  splitLinesAux_ne_nil t []

theorem dropWhile_dropWhile {α : Type} (p : α → Bool) (l : List α) :
    (l.dropWhile p).dropWhile p = l.dropWhile p := by
  cases hd : l.dropWhile p with
  | nil => rfl
  | cons c t =>
    have hc : p c = false := dropWhile_head_false l hd
    rw [List.dropWhile_cons, hc]
    simp

theorem mem_of_mem_dropWhile {α : Type} {p : α → Bool} {l : List α} {x : α}
    (h : x ∈ l.dropWhile p) : x ∈ l := by
  induction l with
  | nil => simp at h
  | cons a as ih =>
    rw [List.dropWhile_cons] at h
    by_cases hp : p a
    · rw [if_pos hp] at h
      exact List.mem_cons_of_mem a (ih h)
    · rw [if_neg hp] at h
      exact h

/-- Trimming is insensitive to a prior strip of leading whitespace:
this is why the streaming reader may buffer continuation lines with
`trim_start` applied and still parse the same frame. -/
theorem trimText_trimStart (x : Text) :
    trimText (trimStartText x) = trimText x := by
  unfold trimText trimStartText
  rw [dropWhile_dropWhile]

theorem parseEntityBuf_trimStart (b : Text) (pre : List Text) :
    parseEntityBuf (b :: pre.map trimStartText) = parseEntityBuf (b :: pre) := by
  unfold parseEntityBuf
  have hmap : (pre.map trimStartText).map trimText = pre.map trimText := by
    rw [List.map_map]
    exact List.map_congr_left fun x _ => trimText_trimStart x
  simp only [List.map_cons, hmap]

/-- `from_str` / `parse_text`: parse a document in one shot. -/
def parseOboText (t : Text) : Except OboError OboDoc :=
  parseOboDocLines (splitLines t)

/-- `from_reader`: parse a document through the streaming reader. -/
def oboDocFromRead (t : Text) : Except OboError OboDoc :=
  oboDocFromLines (splitLines t)

/-! ## Streaming / one-shot equivalence -/

/-- When the header region parses, the header loop of the reader ends on
the first stanza line (or end of stream) carrying exactly the clauses
the one-shot header parser produces. -/
theorem headerLoop_ok :
    ∀ (lines : List Line), (∀ l ∈ lines, l ≠ []) →
      ∀ (o lo : Nat) (acc hs : List HeaderClause),
        parseHeaderLines (lines.takeWhile fun x => !(isBoundaryB x)) = .ok hs →
        ∃ o2 lo2, headerLoop lines o lo acc =
          ⟨(lines.dropWhile fun x => !(isBoundaryB x)).tail,
           (lines.dropWhile fun x => !(isBoundaryB x)).headD [],
           o2, lo2, some (.ok (.Header (acc ++ hs)))⟩ := by
  intro lines
  induction lines with
  | nil =>
    intro _ o lo acc hs hok
    simp only [List.takeWhile_nil, parseHeaderLines, Except.ok.injEq] at hok
    subst hok
    exact ⟨o, lo, by simp [headerLoop]⟩
  | cons l ls ih =>
    intro hwf o lo acc hs hok
    have hlne : l ≠ [] := hwf l (by simp)
    by_cases hb : isBoundaryB l = true
    · rw [List.takeWhile_cons, hb] at hok
      simp only [Bool.not_true, Bool.false_eq_true, if_false,
        parseHeaderLines, Except.ok.injEq] at hok
      subst hok
      refine ⟨o, lo, ?_⟩
      unfold headerLoop
      rw [if_neg (by simp [hb]), if_pos (Or.inl hb)]
      rw [List.dropWhile_cons, hb]
      simp
    · have hbf : isBoundaryB l = false := Bool.eq_false_iff.mpr hb
      rw [List.takeWhile_cons, hbf] at hok
      simp only [Bool.not_false, if_true] at hok
      rw [List.dropWhile_cons, hbf]
      simp only [Bool.not_false, if_true]
      by_cases he : trimStartText l = []
      · rw [parseHeaderLines, if_pos he] at hok
        obtain ⟨o2, lo2, hrec⟩ :=
          ih (fun x hx => hwf x (by simp [hx])) (o + l.length) (lo + 1) acc hs hok
        refine ⟨o2, lo2, ?_⟩
        unfold headerLoop
        rw [if_neg (by simp [he]), if_neg (by simp [hbf, hlne])]
        exact hrec
      · rw [parseHeaderLines, if_neg he] at hok
        cases hp : parseHeaderClause (trimText l) with
        | none => rw [hp] at hok; simp at hok
        | some c =>
          rw [hp] at hok
          cases hrest : parseHeaderLines (ls.takeWhile fun x => !(isBoundaryB x)) with
          | error e => rw [hrest] at hok; simp [Except.map] at hok
          | ok hs2 =>
            rw [hrest] at hok
            simp only [Except.map, Except.ok.injEq] at hok
            subst hok
            obtain ⟨o2, lo2, hrec⟩ :=
              ih (fun x hx => hwf x (by simp [hx])) (o + l.length) (lo + 1)
                (acc ++ [c]) hs2 hrest
            refine ⟨o2, lo2, ?_⟩
            unfold headerLoop
            rw [if_pos ⟨hbf, he⟩, hp]
            show headerLoop ls (o + l.length) (lo + 1) (acc ++ [c]) = _
            rw [hrec]
            simp

/-- The entity loop buffers the current line and the (whitespace-
stripped) continuation lines up to the next stanza line, parses them as
one frame, and leaves the stanza line pending. -/
theorem entityLoop_spec :
    ∀ (ls : List Line) (cur : Text) (buf : List Text) (lLO lBO lo bo : Nat),
      (∀ l ∈ ls, l ≠ []) →
      ∃ lo2 bo2, entityLoop cur buf lLO lBO lo bo ls =
        ⟨(match parseEntityBuf (buf ++ cur ::
              ((ls.takeWhile fun x => !(isBoundaryB x)).map trimStartText)) with
           | some e => .ok (.Entity e)
           | none => .error (.SyntaxError ⟨some lo, some bo⟩)),
         (ls.dropWhile fun x => !(isBoundaryB x)).headD [],
         (ls.dropWhile fun x => !(isBoundaryB x)).tail,
         lo2, bo2⟩ := by
  intro ls
  induction ls with
  | nil =>
    intro cur buf lLO lBO lo bo _
    refine ⟨lo + lLO + 1, bo + lBO + 0, ?_⟩
    simp [entityLoop]
  | cons line' rest' ih =>
    intro cur buf lLO lBO lo bo hwf
    have hlne : line' ≠ [] := hwf line' (by simp)
    by_cases hb : isBoundaryB line' = true
    · refine ⟨lo + lLO + 1, bo + lBO + line'.length, ?_⟩
      unfold entityLoop
      rw [if_pos (Or.inl hb)]
      rw [List.takeWhile_cons, List.dropWhile_cons, hb]
      simp
    · have hbf : isBoundaryB line' = false := Bool.eq_false_iff.mpr hb
      obtain ⟨lo2, bo2, hrec⟩ :=
        ih (trimStartText line') (buf ++ [cur]) (lLO + 1)
          (lBO + line'.length) lo bo (fun x hx => hwf x (by simp [hx]))
      refine ⟨lo2, bo2, ?_⟩
      unfold entityLoop
      rw [if_neg (by simp [hbf, hlne])]
      rw [hrec]
      rw [List.takeWhile_cons, List.dropWhile_cons, hbf]
      simp

theorem collectFrames_header (rest : List Line) (line : Line) (o lo : Nat)
    (res : Except OboError Frame) :
    collectFrames ⟨rest, line, o, lo, some res⟩ =
      res :: collectFrames ⟨rest, line, o, lo, none⟩ := by
  rw [collectFrames]

theorem collectFrames_nil (rest : List Line) (o lo : Nat) :
    collectFrames ⟨rest, [], o, lo, none⟩ = [] := by
  rw [collectFrames]
  simp

theorem collectFrames_step (rest : List Line) (line : Line) (o lo : Nat)
    (hline : line ≠ []) :
    collectFrames ⟨rest, line, o, lo, none⟩ =
      (entityLoop line [] 0 0 lo o rest).res ::
        collectFrames ⟨(entityLoop line [] 0 0 lo o rest).rest,
          (entityLoop line [] 0 0 lo o rest).line,
          (entityLoop line [] 0 0 lo o rest).offset,
          (entityLoop line [] 0 0 lo o rest).lineOffset, none⟩ := by
  rw [collectFrames]
  simp [hline]

/-- The entity frames drained from the reader agree with the groups of
the one-shot slicing whenever the latter all parse. -/
theorem streamEntities_ok :
    ∀ (n : Nat) (rest : List Line), rest.length ≤ n →
      ∀ (line : Line) (o lo : Nat) (es : List EntityFrame),
        line ≠ [] → (∀ l ∈ rest, l ≠ []) →
        (groupFrames (line :: rest)).mapM parseEntityGroup = .ok es →
        (collectFrames ⟨rest, line, o, lo, none⟩).mapM intoEntityResult =
          .ok es := by
  intro n
  induction n with
  | zero =>
    intro rest hlen line o lo es hline hwf hok
    have hrest : rest = [] := List.length_eq_zero.mp (Nat.le_zero.mp hlen)
    subst hrest
    rw [groupFrames] at hok
    simp only [List.takeWhile_nil, List.dropWhile_nil, groupFrames] at hok
    rw [collectFrames_step [] line o lo hline]
    simp only [entityLoop, List.nil_append]
    rw [collectFrames_nil]
    cases hpb : parseEntityBuf [line] with
    | none =>
      simp only [List.mapM_cons, List.mapM_nil] at hok
      unfold parseEntityGroup at hok
      rw [hpb] at hok
      simp [bind, Except.bind] at hok
    | some e =>
      simp only [List.mapM_cons, List.mapM_nil] at hok
      unfold parseEntityGroup at hok
      rw [hpb] at hok
      simp only [bind, Except.bind, pure, Except.pure, Functor.map,
        Except.map, Except.ok.injEq] at hok
      subst hok
      rfl
  | succ n ih =>
    intro rest hlen line o lo es hline hwf hok
    rw [groupFrames] at hok
    rw [List.mapM_cons] at hok
    cases hg : parseEntityGroup
        (line :: rest.takeWhile fun x => !(isBoundaryB x)) with
    | error e =>
      rw [hg] at hok
      simp [bind, Except.bind] at hok
    | ok e =>
      rw [hg] at hok
      cases hgs : (groupFrames (rest.dropWhile fun x => !(isBoundaryB x))).mapM
          parseEntityGroup with
      | error e2 =>
        rw [hgs] at hok
        simp [bind, Except.bind, Functor.map, Except.map] at hok
      | ok es2 =>
        rw [hgs] at hok
        simp only [bind, Except.bind, pure, Except.pure, Functor.map,
          Except.map, Except.ok.injEq] at hok
        subst hok
        rw [collectFrames_step rest line o lo hline]
        obtain ⟨lo2, bo2, hel⟩ := entityLoop_spec rest line [] 0 0 lo o hwf
        rw [hel]
        simp only [List.nil_append]
        have hbuf : parseEntityBuf
            (line :: (rest.takeWhile fun x => !(isBoundaryB x)).map trimStartText) =
            parseEntityBuf (line :: rest.takeWhile fun x => !(isBoundaryB x)) :=
          parseEntityBuf_trimStart line _
        unfold parseEntityGroup at hg
        cases hpb : parseEntityBuf
            (line :: rest.takeWhile fun x => !(isBoundaryB x)) with
        | none => rw [hpb] at hg; simp at hg
        | some e2 =>
          rw [hpb] at hg
          simp only [Except.ok.injEq] at hg
          subst hg
          rw [hbuf, hpb]
          rw [List.mapM_cons]
          cases hpost2 : rest.dropWhile fun x => !(isBoundaryB x) with
          | nil =>
            rw [hpost2] at hgs
            rw [groupFrames] at hgs
            simp only [List.mapM_nil, pure, Except.pure, Except.ok.injEq] at hgs
            subst hgs
            simp only [List.headD_nil, List.tail_nil]
            rw [collectFrames_nil]
            rfl
          | cons b bs =>
            simp only [List.headD_cons, List.tail_cons]
            have hb : b ≠ [] := by
              apply hwf
              apply mem_of_mem_dropWhile (p := fun x => !(isBoundaryB x))
              rw [hpost2]
              simp
            have hbs : ∀ l ∈ bs, l ≠ [] := by
              intro l hl
              apply hwf
              apply mem_of_mem_dropWhile (p := fun x => !(isBoundaryB x))
              rw [hpost2]
              simp [hl]
            have hbslen : bs.length ≤ n := by
              have h1 : (rest.dropWhile fun x => !(isBoundaryB x)).length ≤
                  rest.length := length_dropWhile_le _ _
              rw [hpost2] at h1
              simp only [List.length_cons] at h1
              omega
            have hrec := ih bs hbslen b bo2 lo2 es2 hb hbs (by
              rw [← hpost2]
              exact hgs)
            rw [hrec]
            simp [intoEntityResult, bind, Except.bind, pure, Except.pure,
              Functor.map, Except.map]

/-- C2: streaming equivalence — whenever the one-shot parser accepts a
text, collecting the frames yielded by the streaming reader and
assembling them into a document produces the same document. -/
theorem oboDocFromRead_eq_parseOboText {t : Text} {d : OboDoc}
    (h : parseOboText t = .ok d) : oboDocFromRead t = .ok d := by
  unfold parseOboText parseOboDocLines at h
  unfold oboDocFromRead oboDocFromLines newReader
  have hwf := splitLines_ne_nil t
  cases hh : parseHeaderLines
      ((splitLines t).takeWhile fun x => !(isBoundaryB x)) with
  | error e =>
    rw [hh] at h
    simp [bind, Except.bind] at h
  | ok hs =>
    rw [hh] at h
    cases hes : (groupFrames
        ((splitLines t).dropWhile fun x => !(isBoundaryB x))).mapM
        parseEntityGroup with
    | error e =>
      rw [hes] at h
      simp [bind, Except.bind] at h
    | ok es =>
      rw [hes] at h
      simp only [bind, Except.bind, pure, Except.pure, Except.ok.injEq] at h
      subst h
      obtain ⟨o2, lo2, hhl⟩ := headerLoop_ok (splitLines t) hwf 0 0 [] hs hh
      rw [hhl]
      rw [collectFrames_header]
      simp only [List.nil_append]
      cases hpost : (splitLines t).dropWhile fun x => !(isBoundaryB x) with
      | nil =>
        rw [hpost] at hes
        rw [groupFrames] at hes
        simp only [List.mapM_nil, pure, Except.pure, Except.ok.injEq] at hes
        subst hes
        simp only [List.headD_nil, List.tail_nil]
        rw [collectFrames_nil]
        rfl
      | cons b bs =>
        simp only [List.headD_cons, List.tail_cons]
        have hb : b ≠ [] := by
          apply hwf
          apply mem_of_mem_dropWhile (p := fun x => !(isBoundaryB x))
          rw [hpost]
          simp
        have hbs : ∀ l ∈ bs, l ≠ [] := by
          intro l hl
          apply hwf
          apply mem_of_mem_dropWhile (p := fun x => !(isBoundaryB x))
          rw [hpost]
          simp [hl]
        have hgs : (groupFrames (b :: bs)).mapM parseEntityGroup = .ok es := by
          rw [← hpost]
          exact hes
        have hstream := streamEntities_ok bs.length bs (Nat.le_refl _)
          b o2 lo2 es hb hbs hgs
        change Except.map (fun es => OboDoc.mk hs es)
          (List.mapM intoEntityResult (collectFrames ⟨bs, b, o2, lo2, none⟩)) =
          Except.ok ⟨hs, es⟩
        rw [hstream]
        rfl

/-! ## Shape of the frame stream (header first, entities after) -/

/-- The header slot of the reader is always filled after construction:
either with a parsed (possibly empty) header frame or with an error. -/
theorem headerLoop_header_shape :
    ∀ (lines : List Line) (o lo : Nat) (acc : List HeaderClause),
      (∃ hs, (headerLoop lines o lo acc).header = some (.ok (.Header hs))) ∨
      (∃ er, (headerLoop lines o lo acc).header = some (.error er)) := by
  intro lines
  induction lines with
  | nil =>
    intro o lo acc
    exact Or.inl ⟨acc, rfl⟩
  | cons l ls ih =>
    intro o lo acc
    unfold headerLoop
    by_cases h1 : isBoundaryB l = false ∧ trimStartText l ≠ []
    · rw [if_pos h1]
      cases hp : parseHeaderClause (trimText l) with
      | some c => exact ih (o + l.length) (lo + 1) (acc ++ [c])
      | none => exact Or.inr ⟨_, rfl⟩
    · rw [if_neg h1]
      by_cases h2 : isBoundaryB l = true ∨ l = []
      · rw [if_pos h2]
        exact Or.inl ⟨acc, rfl⟩
      · rw [if_neg h2]
        exact ih (o + l.length) (lo + 1) acc

/-- Every result produced by the entity loop is an entity frame or an
error — never a header frame. -/
theorem entityLoop_res_shape :
    ∀ (ls : List Line) (cur : Text) (buf : List Text) (lLO lBO lo bo : Nat),
      (∃ e, (entityLoop cur buf lLO lBO lo bo ls).res = .ok (.Entity e)) ∨
      (∃ er, (entityLoop cur buf lLO lBO lo bo ls).res = .error er) := by
  intro ls
  induction ls with
  | nil =>
    intro cur buf lLO lBO lo bo
    unfold entityLoop
    cases hp : parseEntityBuf (buf ++ [cur]) with
    | some e => exact Or.inl ⟨e, by simp [hp]⟩
    | none =>
      exact Or.inr ⟨.SyntaxError ⟨some lo, some bo⟩, by simp [hp]⟩
  | cons line' rest' ih =>
    intro cur buf lLO lBO lo bo
    unfold entityLoop
    by_cases hb : isBoundaryB line' = true ∨ line' = []
    · rw [if_pos hb]
      cases hp : parseEntityBuf (buf ++ [cur]) with
      | some e => exact Or.inl ⟨e, by simp [hp]⟩
      | none =>
        exact Or.inr ⟨.SyntaxError ⟨some lo, some bo⟩, by simp [hp]⟩
    · rw [if_neg hb]
      exact ih _ _ _ _ _ _

/-- After the header has been taken, the reader never yields a header
frame again. -/
theorem collectFrames_no_header :
    ∀ (n : Nat) (rest : List Line), rest.length ≤ n →
      ∀ (line : Line) (o lo : Nat),
        ∀ r ∈ collectFrames ⟨rest, line, o, lo, none⟩,
          ∀ hs, r ≠ .ok (.Header hs) := by
  intro n
  induction n with
  | zero =>
    intro rest hlen line o lo r hr hs
    have hrest : rest = [] := List.length_eq_zero.mp (Nat.le_zero.mp hlen)
    subst hrest
    by_cases hline : line = []
    · subst hline
      rw [collectFrames_nil] at hr
      simp at hr
    · rw [collectFrames_step [] line o lo hline] at hr
      have hstep : (entityLoop line [] 0 0 lo o []).line = [] := rfl
      have hrest2 : (entityLoop line [] 0 0 lo o []).rest = [] := rfl
      rw [hstep, hrest2, collectFrames_nil] at hr
      simp only [List.mem_singleton] at hr
      subst hr
      rcases entityLoop_res_shape [] line [] 0 0 lo o with ⟨e, he⟩ | ⟨er, he⟩ <;>
        simp [he]
  | succ n ih =>
    intro rest hlen line o lo r hr hs
    by_cases hline : line = []
    · subst hline
      rw [collectFrames_nil] at hr
      simp at hr
    · rw [collectFrames_step rest line o lo hline] at hr
      rcases List.mem_cons.mp hr with rfl | hr
      · rcases entityLoop_res_shape rest line [] 0 0 lo o with ⟨e, he⟩ | ⟨er, he⟩ <;>
          simp [he]
      · have hcons := entityLoop_consumes line [] 0 0 lo o rest
        by_cases hl2 : (entityLoop line [] 0 0 lo o rest).line = []
        · rw [hl2, collectFrames_nil] at hr
          simp at hr
        · have hlen2 : (entityLoop line [] 0 0 lo o rest).rest.length ≤ n := by
            rw [if_neg hl2] at hcons
            omega
          exact ih _ hlen2 _ _ _ r hr hs

/-! ## The round-trip property of header clauses -/

/-- C1 (corrected): parsing the serialized form of a well-formed header
clause yields the clause back.  Well-formedness in particular requires
the tag of an `Unreserved` clause to avoid the reserved tag table; the
round trip fails on such a collision (see the counterexample below). -/
theorem headerClause_roundtrip (c : HeaderClause) (h : wfHeaderClause c) :
    parseHeaderClause c.display = some c :=
  parseHeaderClause_display h

/-- C1, witness: the round trip at `format-version: 1.2`. -/
theorem headerClause_roundtrip_witness :
    wfHeaderClause (HeaderClause.FormatVersion ("1.2").data) ∧
    parseHeaderClause (HeaderClause.FormatVersion ("1.2").data).display =
      some (.FormatVersion ("1.2").data) :=
  ⟨trivial, headerClause_roundtrip _ trivial⟩

/-- C1, counterexample: an `Unreserved` clause whose tag collides with
the reserved tag `remark` serializes to a `remark` line, which is
parsed back as a `Remark` clause, not as the clause itself. -/
theorem headerClause_unreserved_clash :
    parseHeaderClause
        (HeaderClause.Unreserved ("remark").data ("x").data).display =
      some (.Remark ("x").data) ∧
    HeaderClause.Remark ("x").data ≠
      HeaderClause.Unreserved ("remark").data ("x").data :=
  ⟨by decide, by decide⟩

/-- C2, witness: the streaming equivalence at a one-clause document. -/
theorem oboDocFromRead_eq_parseOboText_witness :
    parseOboText ("format-version: 1.2\n").data =
      Except.ok ⟨[.FormatVersion ("1.2").data], []⟩ ∧
    oboDocFromRead ("format-version: 1.2\n").data =
      Except.ok ⟨[.FormatVersion ("1.2").data], []⟩ := by
  have hg : groupFrames ([] : List Line) = [] := by rw [groupFrames]
  have h1 : parseOboText ("format-version: 1.2\n").data =
      Except.ok ⟨[.FormatVersion ("1.2").data], []⟩ := by
    unfold parseOboText
    have hsplit : splitLines ("format-version: 1.2\n").data =
        [("format-version: 1.2\n").data] := rfl
    rw [hsplit]
    unfold parseOboDocLines
    have htake : ([("format-version: 1.2\n").data].takeWhile
        fun x => !(isBoundaryB x)) = [("format-version: 1.2\n").data] := rfl
    have hdrop : ([("format-version: 1.2\n").data].dropWhile
        fun x => !(isBoundaryB x)) = ([] : List Line) := rfl
    rw [htake, hdrop, hg]
    have hh : parseHeaderLines [("format-version: 1.2\n").data] =
        Except.ok [.FormatVersion ("1.2").data] := rfl
    rw [hh]
    rfl
  exact ⟨h1, oboDocFromRead_eq_parseOboText h1⟩

/-- C3: the derived total order on header clauses compares the variant
positions in the fixed tag table first; the payload fields decide the
order only within one variant.  In particular
`FormatVersion "1.4" < FormatVersion "2"` (lexicographic payload) and
`FormatVersion "2" < DataVersion "1.4"` (tag-table precedence). -/
theorem headerClause_cmp_spec (a b : HeaderClause)
    (h : a.tagIndex ≠ b.tagIndex) :
    a.cmp b = cmpNat a.tagIndex b.tagIndex ∧
    HeaderClause.cmp (.FormatVersion ("1.4").data)
      (.FormatVersion ("2").data) = Ordering.lt ∧
    HeaderClause.cmp (.FormatVersion ("2").data)
      (.DataVersion ("1.4").data) = Ordering.lt :=
  ⟨headerClause_cmp_tagIndex a b h, by decide, by decide⟩

/-- C3, witness: the tag-table comparison at two concrete clauses of
different variants. -/
theorem headerClause_cmp_spec_witness :
    (HeaderClause.Remark ("r").data).tagIndex ≠
      (HeaderClause.Ontology ("o").data).tagIndex ∧
    ((HeaderClause.Remark ("r").data).cmp (.Ontology ("o").data) =
        cmpNat (HeaderClause.Remark ("r").data).tagIndex
          (HeaderClause.Ontology ("o").data).tagIndex ∧
      HeaderClause.cmp (.FormatVersion ("1.4").data)
        (.FormatVersion ("2").data) = Ordering.lt ∧
      HeaderClause.cmp (.FormatVersion ("2").data)
        (.DataVersion ("1.4").data) = Ordering.lt) :=
  ⟨by decide, headerClause_cmp_spec _ _ (by decide)⟩

/-- C4: serializing a `TreatXrefsAsHasSubclass` clause emits exactly
the tag followed by the `": "` separator and the serialized prefix —
and with the separator present the clause parses back. -/
theorem treatXrefsAsHasSubclass_sep (p : Text) (h : wfPfx p) :
    (HeaderClause.TreatXrefsAsHasSubclass p).display =
      ("treat-xrefs-as-has-subclass: ").data ++ displayPfx p ∧
    parseHeaderClause (HeaderClause.TreatXrefsAsHasSubclass p).display =
      some (.TreatXrefsAsHasSubclass p) :=
  ⟨rfl, parseHeaderClause_display h⟩

/-- C4, witness: the serialization at the concrete prefix `XR`. -/
theorem treatXrefsAsHasSubclass_sep_witness :
    wfPfx ("XR").data ∧
    ((HeaderClause.TreatXrefsAsHasSubclass ("XR").data).display =
        ("treat-xrefs-as-has-subclass: ").data ++ displayPfx ("XR").data ∧
      parseHeaderClause
          (HeaderClause.TreatXrefsAsHasSubclass ("XR").data).display =
        some (.TreatXrefsAsHasSubclass ("XR").data)) :=
  ⟨⟨by decide, by decide⟩,
    treatXrefsAsHasSubclass_sep ("XR").data ⟨by decide, by decide⟩⟩

/-- C5: frame parsing is blind to clause cardinality — a typedef frame
whose identifier line and clause lines each parse is accepted as a
whole, no matter how many clauses of any variant it contains, so a
violated `ZeroOrOne` or `One` cardinality is never a parse error. -/
theorem typedefFrame_parse_no_cardinality
    (idline t idv : Text) (id : Ident)
    (lines2 : List Text) (cls : List TypedefClause)
    (hsplit : splitTag idline = some (t, idv))
    (htag : unescape t = ("id").data)
    (hid : parseIdentText idv = some id)
    (hcl : lines2.mapM parseTypedefClause = some cls) :
    parseEntityLines (("[Typedef]").data :: idline :: lines2) =
      some (.Typedef id cls) := by
  unfold parseEntityLines
  simp +decide [hsplit, htag, hid, hcl, bind, Option.bind]
  exact hcl

/-- C5, witness: a typedef frame carrying two `name` clauses — a
variant of declared cardinality `ZeroOrOne` — parses. -/
theorem typedefFrame_parse_no_cardinality_witness :
    (TypedefClause.Name ("a").data).cardinality = Cardinality.ZeroOrOne ∧
    parseEntityLines (("[Typedef]").data :: ("id: x").data ::
        [("name: a").data, ("name: b").data]) =
      some (.Typedef (.unprefixed ("x").data)
        [.Name ("a").data, .Name ("b").data]) :=
  ⟨rfl, typedefFrame_parse_no_cardinality ("id: x").data ("id").data
    ("x").data (.unprefixed ("x").data)
    [("name: a").data, ("name: b").data]
    [.Name ("a").data, .Name ("b").data] rfl rfl rfl rfl⟩

/-- The five-line document of the offset divergence: a one-clause
header, a two-line `[Term]` frame, and the opening of a `[Typedef]`
frame. -/
def c6Input : List Line :=
  [("a: b\n").data, ("[Term]\n").data, ("id: x\n").data,
   ("[Typedef]\n").data, ("id: y\n").data]

/-- C6: the line counter is the number of consumed logical lines, but
the byte counter is not the number of consumed bytes.  After yielding
the header (5 bytes, 1 line) and the first entity frame (13 bytes, 2
lines) the reader reports lineOffset 3 — correct — and offset 21,
although only 18 bytes were consumed: the iterator adds the length of
the pending boundary line instead of the emitted frame's own first
line. -/
theorem sequentialReader_offset_bug :
    (nextFrame (nextFrame (newReader c6Input)).2).1 =
      some (Except.ok (Frame.Entity (.Term (.unprefixed ("x").data) []))) ∧
    (nextFrame (nextFrame (newReader c6Input)).2).2.lineOffset = 3 ∧
    ((c6Input.take 3).map List.length).sum = 18 ∧
    (nextFrame (nextFrame (newReader c6Input)).2).2.offset = 21 ∧
    (nextFrame (nextFrame (newReader c6Input)).2).2.offset ≠
      ((c6Input.take 3).map List.length).sum :=
  ⟨rfl, rfl, rfl, rfl, by decide⟩

/-- C7: `to_writer` puts the single blank-line separator between the
header and the first entity frame exactly when both the header and the
entity list are non-empty, and writes no separator otherwise. -/
theorem to_writer_separator (doc : OboDoc) :
    (to_writer doc =
        displayHeaderFrame doc.header ++
          '\n' :: doc.entities.flatMap EntityFrame.display ↔
      doc.header ≠ [] ∧ doc.entities ≠ []) ∧
    (to_writer doc =
        displayHeaderFrame doc.header ++
          doc.entities.flatMap EntityFrame.display ↔
      ¬(doc.header ≠ [] ∧ doc.entities ≠ [])) := by
  unfold to_writer
  by_cases h : doc.header ≠ [] ∧ doc.entities ≠ []
  · rw [if_pos h]
    constructor
    · exact ⟨fun _ => h, fun _ => rfl⟩
    · constructor
      · intro he
        have h2 := List.append_cancel_left he
        have h3 := congrArg List.length h2
        simp at h3
      · intro hn
        exact absurd h hn
  · rw [if_neg h]
    constructor
    · constructor
      · intro he
        have h2 := List.append_cancel_left he
        have h3 := congrArg List.length h2
        simp at h3
      · intro hcond
        exact absurd hcond h
    · exact ⟨fun _ => h, fun _ => by simp⟩

/-- C9 (corrected): the first item yielded by the sequential reader is
the eagerly parsed header result — whenever it is `ok` it is a header
frame, possibly with zero clauses — and no header frame is ever yielded
after the first item.  The unconditional form of the claim fails: on a
malformed header line the first item is an error, not a header frame
(see the counterexample below). -/
theorem sequentialReader_first_header (input : List Line) :
    ∃ first rest2, collectFrames (newReader input) = first :: rest2 ∧
      (∀ f, first = Except.ok f → ∃ hs, f = Frame.Header hs) ∧
      (∀ r ∈ rest2, ∀ hs, r ≠ Except.ok (Frame.Header hs)) := by
  unfold newReader
  cases hq : headerLoop input 0 0 [] with
  | mk rs ln o lo hd =>
    have hshape := headerLoop_header_shape input 0 0 []
    rw [hq] at hshape
    rcases hshape with ⟨hs, hh⟩ | ⟨er, hh⟩
    · have hd_eq : hd = some (Except.ok (Frame.Header hs)) := hh
      subst hd_eq
      rw [collectFrames_header]
      refine ⟨_, _, rfl, ?_, ?_⟩
      · intro f hf
        exact ⟨hs, (Except.ok.inj hf).symm⟩
      · intro r hr hs2
        exact collectFrames_no_header rs.length rs (Nat.le_refl _)
          ln o lo r hr hs2
    · have hd_eq : hd = some (Except.error er) := hh
      subst hd_eq
      rw [collectFrames_header]
      refine ⟨_, _, rfl, ?_, ?_⟩
      · intro f hf
        exact Except.noConfusion hf
      · intro r hr hs2
        exact collectFrames_no_header rs.length rs (Nat.le_refl _)
          ln o lo r hr hs2

/-- C9, counterexample: on the input `abc\n` the header line fails to
parse, and the first item yielded by the reader is a syntax error, not
a header frame. -/
theorem sequentialReader_first_item_error :
    (collectFrames (newReader (splitLines ("abc\n").data))).head? =
      some (Except.error (OboError.SyntaxError ⟨some 0, some 0⟩)) := by
  have h1 : newReader (splitLines ("abc\n").data) =
      ⟨[], ("abc\n").data, 0, 0,
        some (Except.error (OboError.SyntaxError ⟨some 0, some 0⟩))⟩ := rfl
  rw [h1, collectFrames_header]
  rfl

/-! ## The checked `from_pair` conversion -/

/-- A parse-tree pair: the grammar rule it derives and its text. -/
structure OboPair where
  rule : Rule
  content : Text
deriving DecidableEq

/-- `FromPair::from_pair`: the checked conversion refuses a pair whose
rule is not the expected one with an `UnexpectedRule` error carrying
the actual and the expected rule, and otherwise defers to the unchecked
conversion. -/
def from_pair {α : Type} (expected : Rule)
    (unchecked : OboPair → Except OboError α) (p : OboPair) :
    Except OboError α :=
  if p.rule ≠ expected then Except.error (.UnexpectedRule p.rule expected)
  else unchecked p

/-- C10: on a rule mismatch `from_pair` returns the `UnexpectedRule`
error carrying the actual and the expected rule, and its result does
not depend on the unchecked conversion at all; on a rule match it is
exactly the unchecked conversion. -/
theorem from_pair_rule_check {α : Type} (expected : Rule)
    (un un2 : OboPair → Except OboError α) (p : OboPair) :
    (p.rule ≠ expected →
      from_pair expected un p =
          Except.error (.UnexpectedRule p.rule expected) ∧
        from_pair expected un p = from_pair expected un2 p) ∧
    (p.rule = expected → from_pair expected un p = un p) := by
  constructor
  · intro h
    constructor
    · unfold from_pair
      rw [if_pos h]
    · unfold from_pair
      simp only [if_pos h]
  · intro h
    unfold from_pair
    rw [if_neg (fun hne => hne h)]

/-- C10, witness: a mismatched pair is refused with both rules
recorded. -/
theorem from_pair_rule_check_witness :
    (OboPair.mk Rule.Iri [] : OboPair).rule ≠ Rule.Boolean ∧
    from_pair Rule.Boolean (fun _ => Except.ok true)
        (OboPair.mk Rule.Iri []) =
      Except.error (.UnexpectedRule Rule.Iri Rule.Boolean) :=
  ⟨by decide,
    ((from_pair_rule_check Rule.Boolean (fun _ => Except.ok true)
        (fun _ => Except.error (.SyntaxError ⟨none, none⟩))
        (OboPair.mk Rule.Iri [])).1 (by decide)).1⟩

end Fastobo
